import Mathlib

/-!
Verification development for the HQAttendance spreadsheet scripts.

The JavaScript (Google Apps Script) sources are shallowly embedded below:
pure helper functions become Lean functions on `String` / `List`, spreadsheet
cell values become the inductive `Cell`, JS `Date` objects become the
`DateTime` structure (calendar components plus milliseconds within the day,
compared the way JS compares time values, i.e. lexicographically on
(year, month, day, ms)), JS `Map` / `Set` objects become insertion-ordered
association lists / `Finset`s.  Character-level lowercasing is modelled for
the ASCII and Latin-1 letters actually exercised by the scripts.
-/

namespace HQ

/-- JS whitespace class `\s` (the members relevant to the scripts:
ASCII whitespace plus no-break space, BOM and the Unicode space separators). -/
def jsIsSpace (c : Char) : Bool :=
  decide (c = ' ' ∨ c = '\t' ∨ c = '\n' ∨ c = '\r' ∨
    c.toNat = 11 ∨ c.toNat = 12 ∨ c.toNat = 160 ∨ c.toNat = 65279 ∨
    c.toNat = 5760 ∨ (8192 ≤ c.toNat ∧ c.toNat ≤ 8202) ∨
    c.toNat = 8232 ∨ c.toNat = 8233 ∨ c.toNat = 8239 ∨ c.toNat = 8287 ∨
    c.toNat = 12288)

/-- `String.prototype.toLowerCase`, modelled character-wise for the ASCII
letters and the Latin-1 uppercase range (À–Þ except ×).  Characters above
U+00FF are left unchanged; no script in this repository depends on their
case folding. -/
def jsCharToLower (c : Char) : Char :=
  if 65 ≤ c.toNat ∧ c.toNat ≤ 90 then Char.ofNat (c.toNat + 32)
  else if 192 ≤ c.toNat ∧ c.toNat ≤ 222 ∧ c.toNat ≠ 215 then Char.ofNat (c.toNat + 32)
  else c

/-- `String.prototype.toLowerCase` (see `jsCharToLower`). -/
def jsToLower (s : String) : String :=
  ⟨s.data.map jsCharToLower⟩

/-- `String.prototype.trim` at the character-list level. -/
def jsTrimL (l : List Char) : List Char :=
  ((l.dropWhile jsIsSpace).reverse.dropWhile jsIsSpace).reverse

/-- `String.prototype.trim`: strip leading and trailing `\s` characters. -/
def jsTrim (s : String) : String :=
  ⟨jsTrimL s.data⟩

/-- Characters kept by `normalizeName`'s `replace(/[^a-z0-9,]/g, '')`. -/
def normKeepChar (c : Char) : Bool :=
  decide (('a' ≤ c ∧ c ≤ 'z') ∨ ('0' ≤ c ∧ c ≤ '9') ∨ c = ',')

/-- `normalizeName` (Attendance Stats.js): lowercase, delete every character
outside `[a-z0-9,]`, trim.  `if (!name) return ''` is the first line of the
source; an empty string takes that branch and produces itself. -/
def normalizeName (name : String) : String :=
  if name = "" then ""
  else jsTrim ⟨(jsToLower name).data.filter normKeepChar⟩

/-- The key `normalizeName(`${last}, ${first}`)` used throughout the stats
script to identify a person. -/
def nameKeyOf (last first : String) : String :=
  normalizeName (last ++ ", " ++ first)

/-! ### NewNamesDir.js: the loose name key and the status ranks -/

/-- Characters kept by `buildNameKey_`'s `replace(/[^A-Za-zÀ-ɏ]/g, '')`:
ASCII letters plus the Latin-1 Supplement / Latin Extended-A / Extended-B
letters U+00C0–U+024F. -/
def keyKeepChar (c : Char) : Bool :=
  decide (('A' ≤ c ∧ c ≤ 'Z') ∨ ('a' ≤ c ∧ c ≤ 'z') ∨
    (192 ≤ c.toNat ∧ c.toNat ≤ 591))

/-- The cleaning step of `buildNameKey_`. -/
def keyClean (s : String) : String :=
  ⟨s.data.filter keyKeepChar⟩

/-- `buildNameKey_` (NewNamesDir.js): normalized loose key from a
(last name, first name) pair, or `none` (JS `null`) for an invalid pair. -/
def buildNameKey_ (lastName firstName : String) : Option String :=
  let ln := jsToLower (jsTrim lastName)
  let fn := jsToLower (jsTrim firstName)
  if ln = "" ∧ fn = "" then none
  else
    let cleanLn := keyClean ln
    let cleanFn := keyClean fn
    if cleanLn = "" ∧ cleanFn = "" then none
    else some (cleanLn ++ "|" ++ cleanFn)

/-- `getStatusRank_` (NewNamesDir.js): numeric rank of a status string for
sorting, `String(rawStatus || '').toLowerCase().trim()` then the if-chain. -/
def getStatusRank_ (rawStatus : String) : Nat :=
  let s := jsTrim (jsToLower rawStatus)
  if s = "core" then 0
  else if s = "active" then 1
  else if s = "inactive" then 2
  else if s = "archived" then 3
  else 4

/-- The rank object of `performFinalSort` (Attendance Stats.js):
`order = { "Core": 1, "Active": 2, "Inactive": 3, "Archive": 4 }` read as
`order[status] || 99` (exact, case-sensitive property lookup). -/
def finalSortOrderRank (status : String) : Nat :=
  if status = "Core" then 1
  else if status = "Active" then 2
  else if status = "Inactive" then 3
  else if status = "Archive" then 4
  else 99

/-! ### `standardizeNameHelper` (part_002) -/

/-- Characters kept by `standardizeNameHelper`'s `replace(/[^a-z,\s]/g, "")`. -/
def stdKeepChar (c : Char) : Bool :=
  decide (('a' ≤ c ∧ c ≤ 'z') ∨ c = ',') || jsIsSpace c

/-- `String.prototype.split` on a single-character class: split the list at
every character satisfying `p`, keeping empty pieces (JS `split` on a
one-character separator).  For the `/\s+/` splits the script follows this
with `.filter(Boolean)`, and splitting at every space character then
dropping empty pieces coincides with splitting at maximal space runs. -/
def splitChars (p : Char → Bool) : List Char → List (List Char)
  | [] => [[]]
  | c :: cs =>
    let r := splitChars p cs
    if p c then [] :: r
    else
      match r with
      | [] => [[c]]
      | t :: ts => (c :: t) :: ts

/-- `replace(/\s+/g, '')`: delete every whitespace character. -/
def stripSpaces (l : List Char) : List Char :=
  l.filter (fun c => !jsIsSpace c)

/-- `Array.prototype.join(' ')`. -/
def joinSp : List (List Char) → List Char
  | [] => []
  | [t] => t
  | t :: ts => t ++ ' ' :: joinSp ts

/-- `standardizeNameHelper` (part_002): standardize a free-form name into
`"lastname,firstname"` (lowercased, junk stripped, no spaces). -/
def standardizeNameHelper (nameStr : String) : String :=
  if nameStr = "" then ""
  else
    let name : List Char := ((jsToLower (jsTrim nameStr)).data.filter stdKeepChar)
    if ',' ∈ name then
      let parts := splitChars (fun c => decide (c = ',')) name
      let lastName := jsTrimL (parts.getD 0 [])
      let firstName := jsTrimL (parts.getD 1 [])
      ⟨stripSpaces lastName ++ ',' :: stripSpaces firstName⟩
    else
      let parts := (splitChars jsIsSpace name).filter (fun t => decide (t ≠ []))
      if parts.length = 0 then ""
      else if parts.length = 1 then
        let firstName := jsTrimL (parts.getD 0 [])
        ⟨stripSpaces ([] : List Char) ++ ',' :: stripSpaces firstName⟩
      else
        let firstName := joinSp (parts.take (parts.length - 1))
        let lastName := jsTrimL (parts.getD (parts.length - 1) [])
        ⟨stripSpaces lastName ++ ',' :: stripSpaces firstName⟩

/-! ### Dates

A JS `Date` is modelled by its local calendar components together with the
milliseconds elapsed within the day.  JS compares `Date`s by their time
values; for normalized components that order is lexicographic on
(year, month, day, ms), which `dtVal` encodes injectively (month < 13,
day < 32, ms < 10^8). -/

structure DateTime where
  year : Nat
  month : Nat
  day : Nat
  ms : Nat
deriving DecidableEq, Repr

/-- Order-preserving encoding of a (normalized) `DateTime`. -/
def dtVal (d : DateTime) : Nat :=
  ((d.year * 13 + d.month) * 32 + d.day) * 100000000 + d.ms

/-- `a <= b` on JS dates. -/
def dtLe (a b : DateTime) : Prop := dtVal a ≤ dtVal b

/-- `a < b` on JS dates. -/
def dtLt (a b : DateTime) : Prop := dtVal a < dtVal b

instance (a b : DateTime) : Decidable (dtLe a b) := by unfold dtLe; infer_instance
instance (a b : DateTime) : Decidable (dtLt a b) := by unfold dtLt; infer_instance

/-- `Date.prototype.toDateString()` renders the calendar day (the JS string
also carries the weekday name, which is a function of the numeric date and
is omitted here). -/
def dateKeyString (d : DateTime) : String :=
  toString d.month ++ " " ++ toString d.day ++ " " ++ toString d.year

/-! Quarter window constants of `calculateAttendanceStats`.  The JS
expressions `new Date(y, 3, 0)`, `new Date(y, 6, 0)`, `new Date(y, 9, 0)`
normalize to Mar 31, Jun 30 and Sep 30 respectively (day 0 of a month is the
last day of the previous month); the embedded constants are those normalized
values, at local midnight. -/

def q1Start (y : Nat) : DateTime := ⟨y, 1, 1, 0⟩
def q1End (y : Nat) : DateTime := ⟨y, 3, 31, 0⟩
def q2Start (y : Nat) : DateTime := ⟨y, 4, 1, 0⟩
def q2End (y : Nat) : DateTime := ⟨y, 6, 30, 0⟩
def q3Start (y : Nat) : DateTime := ⟨y, 7, 1, 0⟩
def q3End (y : Nat) : DateTime := ⟨y, 9, 30, 0⟩
def q4Start (y : Nat) : DateTime := ⟨y, 10, 1, 0⟩
def q4End (y : Nat) : DateTime := ⟨y, 12, 31, 0⟩

/-- `r.date >= qs && r.date <= qe`. -/
def inQuarter (qs qe : DateTime) (d : DateTime) : Bool :=
  decide (dtLe qs d ∧ dtLe d qe)

def inQ1 (y : Nat) (d : DateTime) : Bool := inQuarter (q1Start y) (q1End y) d
def inQ2 (y : Nat) (d : DateTime) : Bool := inQuarter (q2Start y) (q2End y) d
def inQ3 (y : Nat) (d : DateTime) : Bool := inQuarter (q3Start y) (q3End y) d
def inQ4 (y : Nat) (d : DateTime) : Bool := inQuarter (q4Start y) (q4End y) d

/-! ### The BEL-code generator of `matchOrAssignBelCodes` -/

structure GenState where
  used : Finset Nat
  counter : Nat
deriving DecidableEq

/-- `let codeCounter = allUsedCodes.size > 0 ? Math.max(...allUsedCodes) + 1 : 1`. -/
def initCounter (used : Finset Nat) : Nat :=
  if h : used.Nonempty then used.max' h + 1 else 1

/-- The loop `while (allUsedCodes.has(codeCounter)) codeCounter++`, with an
explicit iteration bound: a run of consecutive members of `used` starting
anywhere has length at most `used.card`, so `used.card` iterations always
reach a value outside `used` (see `skipUsed_spec`). -/
def skipUsedAux (used : Finset Nat) : Nat → Nat → Nat
  | 0, c => c
  | fuel + 1, c => if c ∈ used then skipUsedAux used fuel (c + 1) else c

def skipUsed (used : Finset Nat) (c : Nat) : Nat :=
  skipUsedAux used used.card c

/-- `generateBEL` (Attendance Stats.js): skip past used codes, add the code
to `allUsedCodes`, and return it (the counter is post-incremented). -/
def generateBEL (s : GenState) : Nat × GenState :=
  let c := skipUsed s.used s.counter
  (c, ⟨insert c s.used, c + 1⟩)

/-- `n` successive calls of `generateBEL` within one run. -/
def genSeq (s : GenState) : Nat → List Nat × GenState
  | 0 => ([], s)
  | n + 1 =>
    let r1 := generateBEL s
    let r2 := genSeq r1.2 n
    (r1.1 :: r2.1, r2.2)

/-- Reachability invariant of the generator: every value from the initial
threshold `T` up to (but excluding) the counter is already used. -/
def genInv (T : Nat) (s : GenState) : Prop :=
  T ≤ s.counter ∧ ∀ k, T ≤ k → k < s.counter → k ∈ s.used

/-! ### Cells, `extractNumericBel`, and the used-ID population passes -/

/-- A spreadsheet cell value as seen by the scripts (text, number, boolean,
or empty).  Sheet numbers are modelled as integers; the scripts only ever
accept integer-valued numeric cells as IDs. -/
inductive Cell where
  | str (s : String)
  | num (n : Int)
  | boolV (b : Bool)
  | empty
deriving DecidableEq, Repr

/-- Decimal value of a digit list (the effect of `parseInt` on an
all-digits string). -/
def digitsToNat (l : List Char) : Nat :=
  l.foldl (fun acc c => acc * 10 + (c.toNat - 48)) 0

/-- `extractNumericBel` (Attendance Stats.js): a non-negative integer number
cell is its own ID; a string cell is trimmed and must match `/^\d+$/`;
anything else is `null`. -/
def extractNumericBel (c : Cell) : Option Nat :=
  match c with
  | Cell.num n => if 0 ≤ n then some n.toNat else none
  | Cell.str s =>
    let t := (jsTrim s).data
    if t ≠ [] ∧ t.all Char.isDigit then some (digitsToNat t) else none
  | _ => none

/-- A scanned source row as consumed by the two populate helpers inside
`matchOrAssignBelCodes`: `row[0]` (the BEL/ID cell), `row[2]` (last name),
`row[3]` (first name).  Name cells are modelled as the strings they
display. -/
structure SrcRow where
  id0 : Cell
  last : String
  first : String
deriving DecidableEq, Repr

/-- The mutable state built by the populate passes: the insertion-ordered
`belMap` (JS `Map`) and the `allUsedCodes` set. -/
structure BelState where
  belMap : List (String × Nat)
  used : Finset Nat
deriving DecidableEq

/-- One Directory row of `populateFromDirectory`:
`if (id !== null && last && first) { allUsedCodes.add(id); if (!belMap.has(key)) belMap.set(key, id); }`. -/
def dirStep (st : BelState) (row : SrcRow) : BelState :=
  match extractNumericBel row.id0 with
  | some id =>
    if row.last ≠ "" ∧ row.first ≠ "" then
      { belMap :=
          if (st.belMap.lookup (nameKeyOf row.last row.first)).isSome then st.belMap
          else st.belMap ++ [(nameKeyOf row.last row.first, id)],
        used := insert id st.used }
    else st
  | none => st

/-- One attendance row of `populateFromAttendance`:
`if (id !== null) { allUsedCodes.add(id); if (key && !belMap.has(key)) belMap.set(key, id); }`. -/
def attStep (st : BelState) (row : SrcRow) : BelState :=
  let key := nameKeyOf row.last row.first
  match extractNumericBel row.id0 with
  | some id =>
    { belMap :=
        if key ≠ "" ∧ (st.belMap.lookup key).isNone then st.belMap ++ [(key, id)]
        else st.belMap,
      used := insert id st.used }
  | none => st

/-- `populateFromDirectory(sourceData, startRow)` of `matchOrAssignBelCodes`
(the guard `sourceData.length <= startRow` returns without changes). -/
def populateFromDirectory (st : BelState) (sourceData : List SrcRow)
    (startRow : Nat) : BelState :=
  if sourceData.length ≤ startRow then st
  else (sourceData.drop startRow).foldl dirStep st

/-- `populateFromAttendance(sourceData, startRow)` of
`matchOrAssignBelCodes`. -/
def populateFromAttendance (st : BelState) (sourceData : List SrcRow)
    (startRow : Nat) : BelState :=
  if sourceData.length ≤ startRow then st
  else (sourceData.drop startRow).foldl attStep st

/-- Directory row used in the C6 scenarios: explicit ID 5, empty last name. -/
def c6BadRow : SrcRow := ⟨Cell.num 5, "", "X"⟩

/-- Row with explicit ID 9 and both names present. -/
def c6GoodRow : SrcRow := ⟨Cell.num 9, "Doe", "Jo"⟩

/-- A header row (IDs column holds the title). -/
def c6Header : SrcRow := ⟨Cell.str "BEL", "Last", "First"⟩

/-! ### The activity classifier (`updateActivityLevels`) -/

/-- One raw attendance record as pushed into `results` by
`matchOrAssignBelCodes`: `[bel, first, last, eventName, eventId, date,
isVolunteer]`.  `eventId` always duplicates `eventName` and is never read
downstream, so it is not repeated here; dates are `Date` objects when
pushed, so the consumers' re-parsing guards never fire. -/
structure RawRecord where
  bel : Nat
  firstName : String
  lastName : String
  eventName : String
  date : DateTime
  isVolunteer : Bool
deriving DecidableEq, Repr

/-- The per-person accumulator of `updateActivityLevels`:
`{ count90, lastDate }`. -/
structure AttInfo where
  count90 : Nat
  lastDate : Option DateTime
deriving DecidableEq, Repr

/-- `Map.prototype.set`: replace in place if the key exists, else append. -/
def jsMapSet {β : Type} (m : List (String × β)) (k : String) (v : β) :
    List (String × β) :=
  match m with
  | [] => [(k, v)]
  | (k0, v0) :: rest => if k0 = k then (k, v) :: rest else (k0, v0) :: jsMapSet rest k v

/-- The in-place mutation of one accumulator entry:
`if (!obj.lastDate || d > obj.lastDate) obj.lastDate = d; if (d >= cutoff90) obj.count90++`. -/
def updateInfo (cutoff90 : DateTime) (info : AttInfo) (d : DateTime) : AttInfo :=
  { count90 := if dtLe cutoff90 d then info.count90 + 1 else info.count90,
    lastDate :=
      match info.lastDate with
      | none => some d
      | some l => if dtLt l d then some d else some l }

/-- Processing one raw record into `attMap`
(`if (!first || !last || !dateVal) return; ... if (!key) return; ...`). -/
def stepAtt (cutoff90 : DateTime) (m : List (String × AttInfo))
    (r : RawRecord) : List (String × AttInfo) :=
  if r.firstName = "" ∨ r.lastName = "" then m
  else
    let key := nameKeyOf r.lastName r.firstName
    if key = "" then m
    else jsMapSet m key
      (updateInfo cutoff90 ((m.lookup key).getD ⟨0, none⟩) r.date)

/-- The `attMap` built by `updateActivityLevels` from the raw records.  The
two cutoffs (`today − 90 days`, `today − 12 months`, produced by the
`setDate`/`setFullYear` calendar arithmetic on `today`) are taken as
inputs. -/
def buildAttMap (cutoff90 : DateTime) (raw : List RawRecord) :
    List (String × AttInfo) :=
  raw.foldl (stepAtt cutoff90) []

/-- The per-row classification of `updateActivityLevels`:
look up the row's normalized name, then
`if (lastDate && lastDate < cutoff12mo) return "Archive"; if (count90 >= 12)
return "Core"; if (count90 >= 3) return "Active"; return "Inactive"`. -/
def tierFor (cutoff12mo : DateTime) (attMap : List (String × AttInfo))
    (last first : String) : String :=
  let key := nameKeyOf last first
  let info := if key = "" then none else attMap.lookup key
  let lastDate := info.bind (fun i => i.lastDate)
  let count90 := (info.map (fun i => i.count90)).getD 0
  if (match lastDate with
      | some l => decide (dtLt l cutoff12mo)
      | none => false) then "Archive"
  else if 12 ≤ count90 then "Core"
  else if 3 ≤ count90 then "Active"
  else "Inactive"

/-- `updateActivityLevels` (Attendance Stats.js), as a function of the raw
record set and the (last, first) name pairs read from C3:D of the
Attendance Stats sheet; the column write is the I/O boundary. -/
def updateActivityLevels (cutoff90 cutoff12mo : DateTime)
    (raw : List RawRecord) (names : List (String × String)) : List String :=
  names.map (fun p => tierFor cutoff12mo (buildAttMap cutoff90 raw) p.1 p.2)

/-- The raw records that `updateActivityLevels` actually accumulates under a
given key: non-empty first and last name, normalizing to that key. -/
def validRecsFor (key : String) (raw : List RawRecord) : List RawRecord :=
  raw.filter (fun r =>
    decide (r.firstName ≠ "" ∧ r.lastName ≠ "" ∧
      nameKeyOf r.lastName r.firstName = key))

/-- The running-maximum date fold (`if (!obj.lastDate || d > obj.lastDate)`)
from an arbitrary start. -/
def maxFoldDate (o : Option DateTime) (recs : List RawRecord) : Option DateTime :=
  recs.foldl (fun o r =>
    match o with
    | none => some r.date
    | some l => if dtLt l r.date then some r.date else some l) o

/-- Most recent record date of a record list. -/
def maxDateOf (recs : List RawRecord) : Option DateTime :=
  maxFoldDate none recs

/-- Number of raw records dated on or after the 90-day cutoff. -/
def count90Of (cutoff90 : DateTime) (recs : List RawRecord) : Nat :=
  (recs.filter (fun r => decide (dtLe cutoff90 r.date))).length

/-! ### `calculateAttendanceStats` -/

/-- Does `pat` occur at the head of the list? -/
def listStartsWith : List Char → List Char → Bool
  | [], _ => true
  | _ :: _, [] => false
  | p :: ps, c :: cs => (p == c) && listStartsWith ps cs

/-- Does `pat` occur anywhere in the list? -/
def hasSub (pat : List Char) : List Char → Bool
  | [] => listStartsWith pat []
  | c :: cs => listStartsWith pat (c :: cs) || hasSub pat cs

/-- `/sunday service/i.test(eventName)`. -/
def isSundayService (eventName : String) : Bool :=
  hasSub "sunday service".data (jsToLower eventName).data

/-- The event key of `calculateAttendanceStats`:
`Sunday Service-${date.toDateString()}` for Sunday-service-labeled events,
else `${eventName}-${date.toDateString()}`. -/
def eventKey (eventName : String) (d : DateTime) : String :=
  if isSundayService eventName then "Sunday Service-" ++ dateKeyString d
  else eventName ++ "-" ++ dateKeyString d

/-- The per-record object pushed into `grouped`:
`{ firstName, lastName, date, eventKey, isVolunteer }`. -/
structure GRecord where
  firstName : String
  lastName : String
  date : DateTime
  eventKey : String
  isVolunteer : Bool
deriving DecidableEq, Repr

def toGRecord (r : RawRecord) : GRecord :=
  ⟨r.firstName, r.lastName, r.date, eventKey r.eventName r.date, r.isVolunteer⟩

/-- The records grouped under one BEL code, in scan order (the JS `Map`
pushes each record onto the list held under its `bel`). -/
def recordsOf (raw : List RawRecord) (bel : Nat) : List GRecord :=
  (raw.filter (fun r => decide (r.bel = bel))).map toGRecord

/-- `Set.prototype.add` on an insertion-ordered list. -/
def setAdd (s : List String) (k : String) : List String :=
  if k ∈ s then s else s ++ [k]

/-- One iteration of the quarter-set loop: insert the record's event key
into each quarter set whose window contains the record's date. -/
def quarterStep (y : Nat)
    (acc : List String × List String × List String × List String)
    (r : GRecord) :
    List String × List String × List String × List String :=
  (if inQ1 y r.date then setAdd acc.1 r.eventKey else acc.1,
   if inQ2 y r.date then setAdd acc.2.1 r.eventKey else acc.2.1,
   if inQ3 y r.date then setAdd acc.2.2.1 r.eventKey else acc.2.2.1,
   if inQ4 y r.date then setAdd acc.2.2.2 r.eventKey else acc.2.2.2)

/-- The four quarter event-key sets (`q1Events` .. `q4Events`). -/
def collectQuarterKeys (y : Nat) (records : List GRecord) :
    List String × List String × List String × List String :=
  records.foldl (quarterStep y) ([], [], [], [])

/-- `records.sort((a, b) => b.date.getTime() - a.date.getTime()); records[0]`:
the stable descending sort puts first the earliest-scanned record among
those with the maximal date. -/
def pickMostRecent : List GRecord → Option GRecord
  | [] => none
  | r :: rs =>
    match pickMostRecent rs with
    | none => some r
    | some m => if dtLt r.date m.date then some m else some r

/-- `eventKey.lastIndexOf("-")`. -/
def lastIndexOfDash (l : List Char) : Option Nat :=
  match l.reverse.findIdx? (fun c => c == '-') with
  | none => none
  | some j => some (l.length - 1 - j)

/-- `lastDashIndex > -1 ? eventKey.substring(0, lastDashIndex) : eventKey`. -/
def lastEventNameOf (k : String) : String :=
  match lastIndexOfDash k.data with
  | some i => ⟨k.data.take i⟩
  | none => k

/-- `/pastoral\s*check[-\s]*in/i` matched at the head of a (lowercased)
character list.  The greedy gap consumption is equivalent to the regex
since `c` and `i` are neither spaces nor hyphens. -/
def pastoralAt (l : List Char) : Bool :=
  if listStartsWith "pastoral".data l then
    let l1 := (l.drop 8).dropWhile jsIsSpace
    if listStartsWith "check".data l1 then
      let l2 := (l1.drop 5).dropWhile (fun c => c == '-' || jsIsSpace c)
      listStartsWith "in".data l2
    else false
  else false

def pastoralSearch : List Char → Bool
  | [] => pastoralAt []
  | c :: cs => pastoralAt (c :: cs) || pastoralSearch cs

/-- `/pastoral\s*check[-\s]*in/i.test(s)`. -/
def pastoralTest (s : String) : Bool :=
  pastoralSearch (jsToLower s).data

/-- The Directory name-lookup set of `calculateAttendanceStats`
(built from `dData.slice(1)`, keeping rows with both names truthy). -/
def directoryNamesSet (dData : List SrcRow) : List String :=
  if 1 < dData.length then
    (dData.drop 1).foldl (fun acc row =>
      if row.last ≠ "" ∧ row.first ≠ "" then
        setAdd acc (nameKeyOf row.last row.first)
      else acc) []
  else []

/-- One output row of `calculateAttendanceStats`:
`[bel, firstName, lastName, q1, q2, q3, q4, total, lastDate, lastEventName,
guestStatus]`. -/
structure StatRow where
  bel : Nat
  firstName : String
  lastName : String
  q1 : Nat
  q2 : Nat
  q3 : Nat
  q4 : Nat
  total : Nat
  lastDate : DateTime
  lastEventName : String
  guestStatus : String
deriving DecidableEq, Repr

/-- The body of `grouped.forEach` for one BEL code. -/
def statRowFor (y : Nat) (dirSet : List String) (bel : Nat)
    (records : List GRecord) : Option StatRow :=
  match pickMostRecent records with
  | none => none
  | some m =>
    let qs := collectQuarterKeys y records
    let rawName := lastEventNameOf m.eventKey
    let lastEventName :=
      if pastoralTest rawName then "Pastoral Check-In" else rawName
    let standardizedName := nameKeyOf m.lastName m.firstName
    let guestStatus := if standardizedName ∈ dirSet then "" else "Guest"
    some ⟨bel, m.firstName, m.lastName,
      qs.1.length, qs.2.1.length, qs.2.2.1.length, qs.2.2.2.length,
      qs.1.length + qs.2.1.length + qs.2.2.1.length + qs.2.2.2.length,
      m.date, lastEventName, guestStatus⟩

/-- First-occurrence deduplication (the iteration order of a JS `Map`
keyed by BEL code). -/
def firstDedupAux (seen : List Nat) : List Nat → List Nat
  | [] => []
  | a :: l =>
    if a ∈ seen then firstDedupAux seen l
    else a :: firstDedupAux (seen ++ [a]) l

def firstDedup (l : List Nat) : List Nat :=
  firstDedupAux [] l

/-- `calculateAttendanceStats` (Attendance Stats.js), as a function of the
current year, the raw record list produced by `matchOrAssignBelCodes`, and
the Directory grid rows. -/
def calculateAttendanceStats (y : Nat) (raw : List RawRecord)
    (dData : List SrcRow) : List StatRow :=
  if raw = [] then []
  else (firstDedup (raw.map (fun r => r.bel))).filterMap
    (fun b => statRowFor y (directoryNamesSet dData) b (recordsOf raw b))

/-- Raw records of the C1 witness: the same person, two Sunday-service
labels from different sources on the same calendar day. -/
def c1Raw : List RawRecord :=
  [⟨1, "John", "Smith", "Sunday Service", ⟨2024, 1, 5, 0⟩, false⟩,
   ⟨1, "John", "Smith", "sunday service (AppSheet)", ⟨2024, 1, 5, 0⟩, false⟩]

/-! ### The tabular store and `syncDirectoryNamesToAllTabs` (NewNamesDir.js) -/

/-- `(v || '').toString()`: falsy cell values (empty, 0, false, "")
display as the empty string. -/
def cellDisp (c : Cell) : String :=
  match c with
  | Cell.empty => ""
  | Cell.str s => s
  | Cell.num n => if n = 0 then "" else toString n
  | Cell.boolV b => if b then "true" else ""

/-- One sheet: the occupied grid, one list per row (row 1 first).
`getLastRow()` is the number of occupied rows, i.e. the list length. -/
structure SheetData where
  rows : List (List Cell)
deriving DecidableEq, Repr

def lastRowOf (sh : SheetData) : Nat := sh.rows.length

/-- 1-based cell read; cells outside the occupied region are empty. -/
def getCell (sh : SheetData) (r c : Nat) : Cell :=
  (sh.rows.getD (r - 1) []).getD (c - 1) Cell.empty

/-- `getLastColumn()`: the widest occupied row. -/
def numColsOf (sh : SheetData) : Nat :=
  sh.rows.foldl (fun m row => max m row.length) 0

/-- `(value || '').toString().trim()` of a name cell. -/
def readName (sh : SheetData) (r c : Nat) : String :=
  jsTrim (cellDisp (getCell sh r c))

def padRowsTo (l : List (List Cell)) (n : Nat) : List (List Cell) :=
  l ++ List.replicate (n - l.length) []

/-- `getRange(startRow, 1, block.length, numCols).setValues(block)`: the
block replaces the rows of its footprint (each written row spans the full
configured width), extending the sheet as needed. -/
def writeRows (sh : SheetData) (startRow : Nat) (block : List (List Cell)) :
    SheetData :=
  let base := padRowsTo sh.rows (startRow - 1 + block.length)
  ⟨base.take (startRow - 1) ++ block ++ base.drop (startRow - 1 + block.length)⟩

/-- One per-tab descriptor of `SHEETS_CONFIG`. -/
structure TabCfg where
  lastNameCol : Nat
  firstNameCol : Nat
  headerRows : Nat
  idCol : Option Nat
deriving DecidableEq, Repr

def eaCfg : TabCfg := ⟨3, 4, 4, none⟩
def ssCfg : TabCfg := ⟨3, 4, 3, none⟩
def pciCfg : TabCfg := ⟨3, 4, 3, none⟩
def appsheetCfg : TabCfg := ⟨2, 3, 1, some 1⟩

/-- A directory/union entry `{ lastName, firstName, key }`. -/
structure Entry where
  lastName : String
  firstName : String
  key : String
deriving DecidableEq, Repr

/-- The `existingKeys` set of a tab: scan the data rows (header+1 .. lastRow),
skip rows with both names blank, collect the non-null loose keys. -/
def existingKeysOf (sh : SheetData) (cfg : TabCfg) : List String :=
  (List.range' (cfg.headerRows + 1) (lastRowOf sh - cfg.headerRows)).foldl
    (fun acc r =>
      let ln := readName sh r cfg.lastNameCol
      let fn := readName sh r cfg.firstNameCol
      if ln = "" ∧ fn = "" then acc
      else
        match buildNameKey_ ln fn with
        | none => acc
        | some k => setAdd acc k) []

/-- `getNextAvailableRow_` (NewNamesDir.js): the first data row whose two
name cells are both blank, else `lastRow + 1`. -/
def getNextAvailableRow_ (sh : SheetData) (dataStartRow lastNameCol
    firstNameCol : Nat) : Nat :=
  let lastRow := lastRowOf sh
  if lastRow < dataStartRow then dataStartRow
  else
    match (List.range' dataStartRow (lastRow - dataStartRow + 1)).find?
        (fun r => decide (readName sh r lastNameCol = "" ∧
          readName sh r firstNameCol = "")) with
    | some r => r
    | none => lastRow + 1

/-- `Number(raw)` on a non-empty cell, as used by the max-ID scans
(numeric cells modelled as integers). -/
def cellNum (c : Cell) : Option Int :=
  match c with
  | Cell.num n => some n
  | Cell.str s => s.toInt?
  | Cell.boolV b => some (if b then 1 else 0)
  | Cell.empty => none

/-- The max-ID scan of the sequential-ID column:
`if (raw === '' || raw === null) continue; const n = Number(raw);
if (!isNaN(n) && n > maxId) maxId = n`. -/
def maxIdIn (sh : SheetData) (cfg : TabCfg) (idc : Nat) : Int :=
  (List.range' (cfg.headerRows + 1) (lastRowOf sh - cfg.headerRows)).foldl
    (fun maxId r =>
      match getCell sh r idc with
      | Cell.empty => maxId
      | c =>
        match cellNum c with
        | some n => if maxId < n then n else maxId
        | none => maxId) 0

/-- Accumulator of the append loop: the growing `existingKeys` set, the
running sequential ID, and `rowsToAppend`. -/
structure AppendState where
  existing : List String
  nextId : Option Int
  rowsToAppend : List (List Cell)

/-- The shared append pass: for each entry whose key is not yet present,
extend `existingKeys`, build a blank row of the sheet's width carrying the
names (and the incremented sequential ID when the tab has an ID column),
then write the collected rows as one block starting at the first blank row.
This is the body repeated verbatim at NewNamesDir.js lines 151–232
(Directory pass), 628–681 (union → attendance tabs, no ID column) and
716–795 (union → Appsheet tabs). -/
def syncEntriesIntoTab (entries : List Entry) (sh : SheetData)
    (cfg : TabCfg) : SheetData :=
  let dataStartRow := cfg.headerRows + 1
  let numCols := numColsOf sh
  let nextId0 : Option Int :=
    match cfg.idCol with
    | none => none
    | some idc => some (maxIdIn sh cfg idc)
  let final := entries.foldl
    (fun (st : AppendState) e =>
      if e.key ∈ st.existing then st
      else
        match st.nextId, cfg.idCol with
        | some nid, some idc =>
          { existing := st.existing ++ [e.key],
            nextId := some (nid + 1),
            rowsToAppend := st.rowsToAppend ++
              [(((List.replicate numCols Cell.empty).set (idc - 1)
                  (Cell.num (nid + 1))).set (cfg.lastNameCol - 1)
                  (Cell.str e.lastName)).set (cfg.firstNameCol - 1)
                  (Cell.str e.firstName)] }
        | _, _ =>
          { existing := st.existing ++ [e.key],
            nextId := st.nextId,
            rowsToAppend := st.rowsToAppend ++
              [((List.replicate numCols Cell.empty).set (cfg.lastNameCol - 1)
                  (Cell.str e.lastName)).set (cfg.firstNameCol - 1)
                  (Cell.str e.firstName)] })
    ⟨existingKeysOf sh cfg, nextId0, []⟩
  if final.rowsToAppend = [] then sh
  else
    writeRows sh
      (getNextAvailableRow_ sh dataStartRow cfg.lastNameCol cfg.firstNameCol)
      final.rowsToAppend

/-- The clean `directoryEntries` list (Directory: cols C/D, 3 header rows;
rows with both names blank or a null key are skipped). -/
def directoryEntriesOf (dir : SheetData) : List Entry :=
  (List.range' 4 (lastRowOf dir - 3)).foldl
    (fun acc r =>
      let ln := readName dir r 3
      let fn := readName dir r 4
      if ln = "" ∧ fn = "" then acc
      else
        match buildNameKey_ ln fn with
        | none => acc
        | some k => acc ++ [⟨ln, fn, k⟩]) []

/-- `unionMap.set` keyed by loose key, first entry wins. -/
def unionAdd (m : List Entry) (e : Entry) : List Entry :=
  if m.any (fun x => x.key == e.key) then m else m ++ [e]

/-- Adding one source tab's rows into the union map. -/
def unionFromTab (acc0 : List Entry) (sh : SheetData) (cfg : TabCfg) :
    List Entry :=
  (List.range' (cfg.headerRows + 1) (lastRowOf sh - cfg.headerRows)).foldl
    (fun acc r =>
      let ln := readName sh r cfg.lastNameCol
      let fn := readName sh r cfg.firstNameCol
      if ln = "" ∧ fn = "" then acc
      else
        match buildNameKey_ ln fn with
        | none => acc
        | some k => unionAdd acc ⟨ln, fn, k⟩) acc0

/-- `buildUnionEntries_`: Directory entries first, then Event Attendance,
Sunday Service and Pastoral Check-In (the Appsheet tabs are targets only). -/
def buildUnionEntriesOf (dirEntries : List Entry) (ea ss pci : SheetData) :
    List Entry :=
  unionFromTab (unionFromTab (unionFromTab (dirEntries.foldl unionAdd [])
    ea eaCfg) ss ssCfg) pci pciCfg

/-- The whole spreadsheet as the reconciler sees it. -/
structure Store where
  directory : SheetData
  eventAttendance : SheetData
  sundayService : SheetData
  pastoralCheckIn : SheetData
  appsheetSunserv : SheetData
  appsheetEvent : SheetData
  appsheetPastoral : SheetData
  attendanceStats : SheetData
deriving DecidableEq, Repr

/-- The `statusMap` of `sortSyncedTabsByAttendanceStatus` (Attendance Stats:
last name C, first name D, status F, 2 header rows; later rows overwrite). -/
def sortStatusMapOf (stats : SheetData) : List (String × Nat) :=
  (List.range' 3 (lastRowOf stats - 2)).foldl
    (fun m r =>
      match buildNameKey_ (readName stats r 3) (readName stats r 4) with
      | none => m
      | some k => jsMapSet m k (getStatusRank_ (cellDisp (getCell stats r 6)))) []

/-- Sort comparator of `sortSyncedTabsByAttendanceStatus` applied to
(index, padded row): status rank, then lowercased last name, then lowercased
first name, then original index.  The index tiebreaker makes the order
strict and total, so any comparison sort produces the JS result. -/
def rowMeta (statusMap : List (String × Nat)) (cfg : TabCfg)
    (p : Nat × List Cell) : Nat × String × String :=
  let ln := jsTrim (cellDisp (p.2.getD (cfg.lastNameCol - 1) Cell.empty))
  let fn := jsTrim (cellDisp (p.2.getD (cfg.firstNameCol - 1) Cell.empty))
  let rank : Nat :=
    match buildNameKey_ ln fn with
    | none => 4
    | some k =>
      match statusMap.lookup k with
      | some rk => rk
      | none => 4
  (rank, jsToLower ln, jsToLower fn)

def sortRowLe (statusMap : List (String × Nat)) (cfg : TabCfg)
    (a b : Nat × List Cell) : Bool :=
  let ma := rowMeta statusMap cfg a
  let mb := rowMeta statusMap cfg b
  if ma.1 ≠ mb.1 then decide (ma.1 < mb.1)
  else if ma.2.1 ≠ mb.2.1 then decide (ma.2.1 < mb.2.1)
  else if ma.2.2 ≠ mb.2.2 then decide (ma.2.2 < mb.2.2)
  else decide (a.1 ≤ b.1)

/-- Sorting one tab's data rows in place. -/
def sortTab (statusMap : List (String × Nat)) (sh : SheetData)
    (cfg : TabCfg) : SheetData :=
  if lastRowOf sh ≤ cfg.headerRows then sh
  else
    let numCols := numColsOf sh
    let dataRows := (sh.rows.drop cfg.headerRows).map
      (fun row => row ++ List.replicate (numCols - row.length) Cell.empty)
    let sorted := (dataRows.enum.mergeSort (sortRowLe statusMap cfg)).map
      (fun p => p.2)
    ⟨sh.rows.take cfg.headerRows ++ sorted⟩

/-- `sortSyncedTabsByAttendanceStatus` (returns unchanged when the stats
sheet has no data rows). -/
def sortSyncedTabsByAttendanceStatus (st : Store) : Store :=
  if lastRowOf st.attendanceStats ≤ 2 then st
  else
    let m := sortStatusMapOf st.attendanceStats
    { st with
      eventAttendance := sortTab m st.eventAttendance eaCfg,
      sundayService := sortTab m st.sundayService ssCfg,
      appsheetSunserv := sortTab m st.appsheetSunserv appsheetCfg,
      appsheetEvent := sortTab m st.appsheetEvent appsheetCfg,
      appsheetPastoral := sortTab m st.appsheetPastoral appsheetCfg,
      pastoralCheckIn := sortTab m st.pastoralCheckIn pciCfg }

/-- `syncDirectoryNamesToAllTabs` (NewNamesDir.js): Directory append into
all six tabs, union build, union append into the attendance tabs, union
append into the Appsheet tabs, then the status sort. -/
def syncDirectoryNamesToAllTabs (st : Store) : Store :=
  let entries := directoryEntriesOf st.directory
  let ea1 := syncEntriesIntoTab entries st.eventAttendance eaCfg
  let ss1 := syncEntriesIntoTab entries st.sundayService ssCfg
  let aps1 := syncEntriesIntoTab entries st.appsheetSunserv appsheetCfg
  let ape1 := syncEntriesIntoTab entries st.appsheetEvent appsheetCfg
  let app1 := syncEntriesIntoTab entries st.appsheetPastoral appsheetCfg
  let pci1 := syncEntriesIntoTab entries st.pastoralCheckIn pciCfg
  let union := buildUnionEntriesOf entries ea1 ss1 pci1
  let ea2 := syncEntriesIntoTab union ea1 eaCfg
  let ss2 := syncEntriesIntoTab union ss1 ssCfg
  let pci2 := syncEntriesIntoTab union pci1 pciCfg
  let aps2 := syncEntriesIntoTab union aps1 appsheetCfg
  let ape2 := syncEntriesIntoTab union ape1 appsheetCfg
  let app2 := syncEntriesIntoTab union app1 appsheetCfg
  sortSyncedTabsByAttendanceStatus
    { st with
      eventAttendance := ea2, sundayService := ss2, pastoralCheckIn := pci2,
      appsheetSunserv := aps2, appsheetEvent := ape2, appsheetPastoral := app2 }

/-- The C7 store: Event Attendance has a blank data row above a populated
one ("Xu, Ann"); Sunday Service also lists Adams, Baker and Xu; the other
tabs are empty; the Directory has no data rows; Attendance Stats has no
data rows (so the final sort pass is a no-op). -/
def c7Store : Store :=
  { directory := ⟨[[Cell.str "H1", Cell.str "H2", Cell.str "H3", Cell.str "H4"],
      [Cell.str "H1", Cell.str "H2", Cell.str "H3", Cell.str "H4"],
      [Cell.str "H1", Cell.str "H2", Cell.str "H3", Cell.str "H4"]]⟩,
    eventAttendance := ⟨[
      [Cell.str "H1", Cell.str "H2", Cell.str "H3", Cell.str "H4"],
      [Cell.str "H1", Cell.str "H2", Cell.str "H3", Cell.str "H4"],
      [Cell.str "H1", Cell.str "H2", Cell.str "H3", Cell.str "H4"],
      [Cell.str "H1", Cell.str "H2", Cell.str "H3", Cell.str "H4"],
      [],
      [Cell.empty, Cell.empty, Cell.str "Xu", Cell.str "Ann"]]⟩,
    sundayService := ⟨[
      [Cell.str "H1", Cell.str "H2", Cell.str "H3", Cell.str "H4"],
      [Cell.str "H1", Cell.str "H2", Cell.str "H3", Cell.str "H4"],
      [Cell.str "H1", Cell.str "H2", Cell.str "H3", Cell.str "H4"],
      [Cell.empty, Cell.empty, Cell.str "Adams", Cell.str "Al"],
      [Cell.empty, Cell.empty, Cell.str "Baker", Cell.str "Bo"],
      [Cell.empty, Cell.empty, Cell.str "Xu", Cell.str "Ann"]]⟩,
    pastoralCheckIn := ⟨[
      [Cell.str "H1", Cell.str "H2", Cell.str "H3", Cell.str "H4"],
      [Cell.str "H1", Cell.str "H2", Cell.str "H3", Cell.str "H4"],
      [Cell.str "H1", Cell.str "H2", Cell.str "H3", Cell.str "H4"]]⟩,
    appsheetSunserv := ⟨[[Cell.str "ID", Cell.str "Last", Cell.str "First"]]⟩,
    appsheetEvent := ⟨[[Cell.str "ID", Cell.str "Last", Cell.str "First"]]⟩,
    appsheetPastoral := ⟨[[Cell.str "ID", Cell.str "Last", Cell.str "First"]]⟩,
    attendanceStats := ⟨[[Cell.str "H1", Cell.str "H2"],
      [Cell.str "H1", Cell.str "H2"]]⟩ }

/-! ### General lemmas about the string helpers -/

theorem char_toNat_ofNat_of_lt (n : Nat) (h : n < 55296) :
    (Char.ofNat n).toNat = n := by
  have hv : n.isValidChar := Or.inl h
  rw [Char.ofNat, dif_pos hv]
  simp [Char.ofNatAux, Char.toNat, UInt32.toNat, BitVec.toNat_ofNatLt]

theorem jsCharToLower_comma {c : Char} (h : jsCharToLower c = ',') : c = ',' := by
  unfold jsCharToLower at h
  split_ifs at h with h1 h2
  · have h2 := congrArg Char.toNat h
    rw [char_toNat_ofNat_of_lt _ (by omega)] at h2
    have h3 : (',' : Char).toNat = 44 := rfl
    omega
  · have h3 := congrArg Char.toNat h
    rw [char_toNat_ofNat_of_lt _ (by omega)] at h3
    have h4 : (',' : Char).toNat = 44 := rfl
    omega
  · exact h

theorem mem_of_jsTrimL {c : Char} {l : List Char} (h : c ∈ jsTrimL l) : c ∈ l := by
  unfold jsTrimL at h
  rw [List.mem_reverse] at h
  have h1 := (List.dropWhile_suffix jsIsSpace).subset h
  rw [List.mem_reverse] at h1
  exact (List.dropWhile_suffix jsIsSpace).subset h1

theorem dropWhile_eq_self_of {p : Char → Bool} {l : List Char}
    (h : ∀ c ∈ l, p c = false) : l.dropWhile p = l := by
  cases l with
  | nil => rfl
  | cons c cs => rw [List.dropWhile_cons, h c (by simp)]; simp

theorem jsTrimL_eq_self {l : List Char}
    (h : ∀ c ∈ l, jsIsSpace c = false) : jsTrimL l = l := by
  unfold jsTrimL
  rw [dropWhile_eq_self_of h, dropWhile_eq_self_of, List.reverse_reverse]
  intro c hc
  exact h c (List.mem_reverse.mp hc)

theorem stripSpaces_eq_self {l : List Char}
    (h : ∀ c ∈ l, jsIsSpace c = false) : stripSpaces l = l := by
  unfold stripSpaces
  refine List.filter_eq_self.mpr ?_
  intro c hc
  rw [h c hc]
  rfl

/-- Every character of every piece produced by `splitChars p` fails `p`. -/
theorem splitChars_pieces {p : Char → Bool} :
    ∀ l : List Char, ∀ t ∈ splitChars p l, ∀ c ∈ t, p c = false := by
  intro l
  induction l with
  | nil =>
    intro t ht c hc
    simp only [splitChars, List.mem_singleton] at ht
    subst ht
    simp at hc
  | cons x xs ih =>
    intro t ht c hc
    simp only [splitChars] at ht
    by_cases hx : p x
    · rw [if_pos hx] at ht
      rcases List.mem_cons.mp ht with h1 | h1
      · subst h1; simp at hc
      · exact ih t h1 c hc
    · rw [if_neg hx] at ht
      rcases hr : splitChars p xs with _ | ⟨t0, ts⟩
      · rw [hr] at ht
        simp only [List.mem_singleton] at ht
        subst ht
        rcases List.mem_singleton.mp hc with rfl
        exact Bool.of_not_eq_true hx
      · rw [hr] at ht
        rcases List.mem_cons.mp ht with h1 | h1
        · subst h1
          rcases List.mem_cons.mp hc with rfl | h2
          · exact Bool.of_not_eq_true hx
          · exact ih t0 (by rw [hr]; exact List.mem_cons_self t0 ts) c h2
        · exact ih t (by rw [hr]; exact List.mem_cons_of_mem t0 h1) c hc

theorem stripSpaces_joinSp :
    ∀ ts : List (List Char), (∀ t ∈ ts, ∀ c ∈ t, jsIsSpace c = false) →
      stripSpaces (joinSp ts) = ts.flatten := by
  intro ts
  induction ts with
  | nil => intro _; rfl
  | cons t rest ih =>
    intro h
    cases rest with
    | nil =>
      simp only [joinSp, List.flatten]
      rw [stripSpaces_eq_self (h t (List.mem_cons_self t [])), List.append_nil]
    | cons t2 rest2 =>
      show stripSpaces (t ++ ' ' :: joinSp (t2 :: rest2)) = _
      unfold stripSpaces
      rw [List.filter_append, List.filter_cons]
      have hsp : (!jsIsSpace ' ') = false := rfl
      rw [hsp]
      simp only [Bool.false_eq_true, if_false]
      rw [List.filter_eq_self.mpr (fun c hc => by
        rw [h t (List.mem_cons_self t _) c hc]; rfl)]
      have := ih (fun t3 ht3 => h t3 (List.mem_cons_of_mem t ht3))
      unfold stripSpaces at this
      rw [this]
      rfl

theorem getD_mem_of_lt {α : Type} {l : List α} {n : Nat} {d : α}
    (h : n < l.length) : l.getD n d ∈ l := by
  rw [List.getD_eq_getElem?_getD, List.getElem?_eq_getElem h]
  exact List.getElem_mem h

/-- Claim C2 — COUNTEREXAMPLE.  The claim asserts the four quarter windows of
`calculateAttendanceStats` leave no gap for any record date of the current
year, including dates carrying a time-of-day component.  A record timestamped
March 31, 12:00 (noon) of the current year lies in none of the four windows:
`q1_end = new Date(y, 3, 0)` is March 31 at *midnight*, so noon of March 31
is past the end of Q1 and before the start of Q2. -/
theorem quarter_gap_noon_march31 :
    (⟨2024, 3, 31, 43200000⟩ : DateTime).year = 2024 ∧
    inQ1 2024 ⟨2024, 3, 31, 43200000⟩ = false ∧
    inQ2 2024 ⟨2024, 3, 31, 43200000⟩ = false ∧
    inQ3 2024 ⟨2024, 3, 31, 43200000⟩ = false ∧
    inQ4 2024 ⟨2024, 3, 31, 43200000⟩ = false := by
  refine ⟨rfl, ?_, ?_, ?_, ?_⟩ <;> decide

/-- Claim C2 (amended) — the quarter windows of `calculateAttendanceStats`
partition the *midnight-timestamped* dates of the current year: every record
date of the current year with no time-of-day component lies in exactly one of
Q1..Q4, and for arbitrary time-of-day components the windows never overlap
(a record on the closing day of a quarter with a positive time-of-day lies in
no window, per `quarter_gap_noon_march31`). -/
theorem quarter_partition_midnight (y m d : Nat)
    (hm1 : 1 ≤ m) (hm2 : m ≤ 12) (hd1 : 1 ≤ d) (hd2 : d ≤ 31)
    (h30 : m = 4 ∨ m = 6 ∨ m = 9 ∨ m = 11 → d ≤ 30)
    (h29 : m = 2 → d ≤ 29) :
    ((inQ1 y ⟨y, m, d, 0⟩ = true ∧ inQ2 y ⟨y, m, d, 0⟩ = false ∧
        inQ3 y ⟨y, m, d, 0⟩ = false ∧ inQ4 y ⟨y, m, d, 0⟩ = false) ∨
      (inQ1 y ⟨y, m, d, 0⟩ = false ∧ inQ2 y ⟨y, m, d, 0⟩ = true ∧
        inQ3 y ⟨y, m, d, 0⟩ = false ∧ inQ4 y ⟨y, m, d, 0⟩ = false) ∨
      (inQ1 y ⟨y, m, d, 0⟩ = false ∧ inQ2 y ⟨y, m, d, 0⟩ = false ∧
        inQ3 y ⟨y, m, d, 0⟩ = true ∧ inQ4 y ⟨y, m, d, 0⟩ = false) ∨
      (inQ1 y ⟨y, m, d, 0⟩ = false ∧ inQ2 y ⟨y, m, d, 0⟩ = false ∧
        inQ3 y ⟨y, m, d, 0⟩ = false ∧ inQ4 y ⟨y, m, d, 0⟩ = true)) ∧
    (∀ t, t < 86400000 →
      (¬(inQ1 y ⟨y, m, d, t⟩ = true ∧ inQ2 y ⟨y, m, d, t⟩ = true)) ∧
      (¬(inQ1 y ⟨y, m, d, t⟩ = true ∧ inQ3 y ⟨y, m, d, t⟩ = true)) ∧
      (¬(inQ1 y ⟨y, m, d, t⟩ = true ∧ inQ4 y ⟨y, m, d, t⟩ = true)) ∧
      (¬(inQ2 y ⟨y, m, d, t⟩ = true ∧ inQ3 y ⟨y, m, d, t⟩ = true)) ∧
      (¬(inQ2 y ⟨y, m, d, t⟩ = true ∧ inQ4 y ⟨y, m, d, t⟩ = true)) ∧
      (¬(inQ3 y ⟨y, m, d, t⟩ = true ∧ inQ4 y ⟨y, m, d, t⟩ = true))) := by
  constructor
  · simp only [inQ1, inQ2, inQ3, inQ4, inQuarter, dtLe, dtVal,
      q1Start, q1End, q2Start, q2End, q3Start, q3End, q4Start, q4End,
      decide_eq_true_eq, decide_eq_false_iff_not, not_and, not_le]
    omega
  · intro t ht
    simp only [inQ1, inQ2, inQ3, inQ4, inQuarter, dtLe, dtVal,
      q1Start, q1End, q2Start, q2End, q3Start, q3End, q4Start, q4End,
      decide_eq_true_eq, not_and]
    omega

/-- Witness for `quarter_partition_midnight` at a concrete date. -/
theorem quarter_partition_midnight_witness :
    (1 ≤ 5 ∧ 5 ≤ 12 ∧ 1 ≤ 15 ∧ 15 ≤ 31) ∧
    (((inQ1 2024 ⟨2024, 5, 15, 0⟩ = true ∧ inQ2 2024 ⟨2024, 5, 15, 0⟩ = false ∧
        inQ3 2024 ⟨2024, 5, 15, 0⟩ = false ∧ inQ4 2024 ⟨2024, 5, 15, 0⟩ = false) ∨
      (inQ1 2024 ⟨2024, 5, 15, 0⟩ = false ∧ inQ2 2024 ⟨2024, 5, 15, 0⟩ = true ∧
        inQ3 2024 ⟨2024, 5, 15, 0⟩ = false ∧ inQ4 2024 ⟨2024, 5, 15, 0⟩ = false) ∨
      (inQ1 2024 ⟨2024, 5, 15, 0⟩ = false ∧ inQ2 2024 ⟨2024, 5, 15, 0⟩ = false ∧
        inQ3 2024 ⟨2024, 5, 15, 0⟩ = true ∧ inQ4 2024 ⟨2024, 5, 15, 0⟩ = false) ∨
      (inQ1 2024 ⟨2024, 5, 15, 0⟩ = false ∧ inQ2 2024 ⟨2024, 5, 15, 0⟩ = false ∧
        inQ3 2024 ⟨2024, 5, 15, 0⟩ = false ∧ inQ4 2024 ⟨2024, 5, 15, 0⟩ = true)) ∧
    (∀ t, t < 86400000 →
      (¬(inQ1 2024 ⟨2024, 5, 15, t⟩ = true ∧ inQ2 2024 ⟨2024, 5, 15, t⟩ = true)) ∧
      (¬(inQ1 2024 ⟨2024, 5, 15, t⟩ = true ∧ inQ3 2024 ⟨2024, 5, 15, t⟩ = true)) ∧
      (¬(inQ1 2024 ⟨2024, 5, 15, t⟩ = true ∧ inQ4 2024 ⟨2024, 5, 15, t⟩ = true)) ∧
      (¬(inQ2 2024 ⟨2024, 5, 15, t⟩ = true ∧ inQ3 2024 ⟨2024, 5, 15, t⟩ = true)) ∧
      (¬(inQ2 2024 ⟨2024, 5, 15, t⟩ = true ∧ inQ4 2024 ⟨2024, 5, 15, t⟩ = true)) ∧
      (¬(inQ3 2024 ⟨2024, 5, 15, t⟩ = true ∧ inQ4 2024 ⟨2024, 5, 15, t⟩ = true)))) :=
  ⟨by decide, quarter_partition_midnight 2024 5 15 (by decide) (by decide)
    (by decide) (by decide) (by omega) (by omega)⟩

/-- Claim C8 — `buildNameKey_` lowercases and trims each field, strips every
character outside the Latin letters plus the Latin-extended range
U+00C0–U+024F, and returns the cleaned last name, `"|"`, and the cleaned
first name; it returns `none` exactly when both fields normalize to the
empty string; it is a pure function of its two arguments; and both
("Smith", "John") and (" smith ", " JOHN ") map to "smith|john". -/
theorem buildNameKey_loose_key_spec :
    (∀ lastName firstName,
      buildNameKey_ lastName firstName =
        if keyClean (jsToLower (jsTrim lastName)) = "" ∧
            keyClean (jsToLower (jsTrim firstName)) = "" then none
        else some (keyClean (jsToLower (jsTrim lastName)) ++ "|" ++
          keyClean (jsToLower (jsTrim firstName)))) ∧
    (∀ a b a2 b2, a = a2 → b = b2 →
      buildNameKey_ a b = buildNameKey_ a2 b2) ∧
    buildNameKey_ "Smith" "John" = some "smith|john" ∧
    buildNameKey_ " smith " " JOHN " = some "smith|john" := by
  refine ⟨?_, ?_, by decide, by decide⟩
  · intro lastName firstName
    simp only [buildNameKey_]
    by_cases h1 : jsToLower (jsTrim lastName) = "" ∧ jsToLower (jsTrim firstName) = ""
    · rw [if_pos h1, h1.1, h1.2]
      have h2 : keyClean "" = "" := rfl
      rw [h2, if_pos ⟨rfl, rfl⟩]
    · rw [if_neg h1]
  · intro a b a2 b2 ha hb
    rw [ha, hb]

/-- Claim C9 — COUNTEREXAMPLE.  The claim asserts that a roster row carrying
the classifier's output label "Archive" gets a sort rank strictly less than
the rank of a row whose tier is unknown.  `getStatusRank_` only recognizes
the lowercase word "archived"; the classifier (`updateActivityLevels`)
writes "Archive", which normalizes to "archive", matches nothing, and
receives the same default rank 4 as an unknown status. -/
theorem getStatusRank_archive_not_below_unknown :
    getStatusRank_ "Archive" = 4 ∧ getStatusRank_ "not found" = 4 ∧
    ¬(getStatusRank_ "Archive" < getStatusRank_ "not found") := by decide

/-- Claim C9 (amended) — `getStatusRank_` assigns the strictly increasing
ranks core(0) < active(1) < inactive(2) < archived(3) < unknown(4)
case-insensitively; the classifier's labels "Core", "Active", "Inactive"
rank 0, 1, 2, but its label "Archive" does not match "archived" and gets the
unknown rank 4 — equal to, not below, a not-found row, and still strictly
above an "Inactive" row.  (`performFinalSort`'s separate rank object does
place "Archive" (4) strictly below unknown (99).) -/
theorem getStatusRank_order_spec :
    getStatusRank_ "core" = 0 ∧ getStatusRank_ "active" = 1 ∧
    getStatusRank_ "inactive" = 2 ∧ getStatusRank_ "archived" = 3 ∧
    getStatusRank_ "unknown" = 4 ∧
    getStatusRank_ "Core" = 0 ∧ getStatusRank_ "Active" = 1 ∧
    getStatusRank_ "Inactive" = 2 ∧ getStatusRank_ "Archive" = 4 ∧
    getStatusRank_ "Inactive" < getStatusRank_ "Archive" ∧
    finalSortOrderRank "Core" = 1 ∧ finalSortOrderRank "Active" = 2 ∧
    finalSortOrderRank "Inactive" = 3 ∧ finalSortOrderRank "Archive" = 4 ∧
    finalSortOrderRank "not found" = 99 ∧
    finalSortOrderRank "Archive" < finalSortOrderRank "not found" := by decide

/-- Claim C10 — on an input containing no comma, `standardizeNameHelper`
treats a sole whitespace-delimited token as a first name with empty last
name, returning `","` followed by the cleaned token; with two or more
tokens the final token becomes the last name and the earlier tokens, joined
with internal whitespace removed, become the first name, returned as
`"lastname,firstname"`. -/
theorem standardizeNameHelper_comma_free (nameStr : String)
    (hnc : ',' ∉ nameStr.data) :
    (∀ t, ((splitChars jsIsSpace ((jsToLower (jsTrim nameStr)).data.filter stdKeepChar)).filter
        (fun t2 => decide (t2 ≠ []))) = [t] →
      standardizeNameHelper nameStr = ⟨',' :: t⟩) ∧
    (∀ ts, ((splitChars jsIsSpace ((jsToLower (jsTrim nameStr)).data.filter stdKeepChar)).filter
        (fun t2 => decide (t2 ≠ []))) = ts → 2 ≤ ts.length →
      standardizeNameHelper nameStr =
        ⟨(ts.getD (ts.length - 1) []) ++ ',' :: (ts.take (ts.length - 1)).flatten⟩) := by
  by_cases hs : nameStr = ""
  · subst hs
    constructor
    · intro t ht
      have h0 : ((splitChars jsIsSpace ((jsToLower (jsTrim "")).data.filter stdKeepChar)).filter
          (fun t2 => decide (t2 ≠ []))) = [] := rfl
      rw [h0] at ht
      exact absurd ht (by simp)
    · intro ts hts h2
      have h0 : ((splitChars jsIsSpace ((jsToLower (jsTrim "")).data.filter stdKeepChar)).filter
          (fun t2 => decide (t2 ≠ []))) = [] := rfl
      rw [h0] at hts
      subst hts
      simp at h2
  · have hcn : ',' ∉ ((jsToLower (jsTrim nameStr)).data.filter stdKeepChar) := by
      intro hmem
      have h1 : ',' ∈ (jsToLower (jsTrim nameStr)).data := List.mem_of_mem_filter hmem
      simp only [jsToLower] at h1
      obtain ⟨c, hc, hceq⟩ := List.mem_map.mp h1
      have hcc := jsCharToLower_comma hceq
      subst hcc
      exact hnc (mem_of_jsTrimL hc)
    have hpieces := splitChars_pieces
      (p := jsIsSpace) ((jsToLower (jsTrim nameStr)).data.filter stdKeepChar)
    constructor
    · intro t ht
      have htok : ∀ c ∈ t, jsIsSpace c = false := by
        intro c hc
        have hmem : t ∈ (splitChars jsIsSpace
            ((jsToLower (jsTrim nameStr)).data.filter stdKeepChar)) := by
          have := ht ▸ List.mem_singleton.mpr (rfl : t = t)
          exact (List.mem_filter.mp this).1
        exact hpieces t hmem c hc
      simp only [standardizeNameHelper, if_neg hs, if_neg hcn, ht]
      have hlen : ¬([t].length = 0) := by simp
      rw [if_neg hlen, if_pos (by simp)]
      have hgd : ([t].getD 0 []) = t := rfl
      rw [hgd, jsTrimL_eq_self htok, stripSpaces_eq_self htok]
      rfl
    · intro ts hts h2
      have htsmem : ∀ t ∈ ts, ∀ c ∈ t, jsIsSpace c = false := by
        intro t htm c hc
        have hmem : t ∈ (splitChars jsIsSpace
            ((jsToLower (jsTrim nameStr)).data.filter stdKeepChar)) :=
          (List.mem_filter.mp (hts ▸ htm)).1
        exact hpieces t hmem c hc
      simp only [standardizeNameHelper, if_neg hs, if_neg hcn, hts]
      have hlen0 : ¬(ts.length = 0) := by omega
      have hlen1 : ¬(ts.length = 1) := by omega
      rw [if_neg hlen0, if_neg hlen1]
      have hlast : ∀ c ∈ ts.getD (ts.length - 1) [], jsIsSpace c = false :=
        htsmem _ (getD_mem_of_lt (by omega))
      rw [jsTrimL_eq_self hlast, stripSpaces_eq_self hlast]
      rw [stripSpaces_joinSp _ (fun t3 ht3 => htsmem t3 (List.mem_of_mem_take ht3))]

/-- Witness for `standardizeNameHelper_comma_free`: "John Smith" becomes
"smith,john". -/
theorem standardizeNameHelper_comma_free_witness :
    ',' ∉ "John Smith".data ∧ standardizeNameHelper "John Smith" = "smith,john" := by
  have h := (standardizeNameHelper_comma_free "John Smith" (by decide)).2
    [['j','o','h','n'], ['s','m','i','t','h']] (by decide) (by decide)
  refine ⟨by decide, ?_⟩
  rw [h]
  decide

/-! ### The generator: `skipUsed` returns the least unused value -/

theorem skipUsedAux_spec (used : Finset Nat) :
    ∀ fuel c, (used.filter (fun x => c ≤ x)).card ≤ fuel →
      c ≤ skipUsedAux used fuel c ∧ skipUsedAux used fuel c ∉ used ∧
      ∀ k, c ≤ k → k ∉ used → skipUsedAux used fuel c ≤ k := by
  intro fuel
  induction fuel with
  | zero =>
    intro c hcard
    have hc : c ∉ used := by
      intro hc
      have hmem : c ∈ used.filter (fun x => c ≤ x) :=
        Finset.mem_filter.mpr ⟨hc, le_refl c⟩
      have := Finset.card_pos.mpr ⟨c, hmem⟩
      omega
    exact ⟨le_refl c, hc, fun k hk _ => hk⟩
  | succ fuel ih =>
    intro c hcard
    by_cases hc : c ∈ used
    · have hsub : used.filter (fun x => c + 1 ≤ x) ⊆
          (used.filter (fun x => c ≤ x)).erase c := by
        intro x hx
        rw [Finset.mem_erase]
        have hx2 := Finset.mem_filter.mp hx
        exact ⟨by omega, Finset.mem_filter.mpr ⟨hx2.1, by omega⟩⟩
      have hcard2 : (used.filter (fun x => c + 1 ≤ x)).card ≤ fuel := by
        have h1 := Finset.card_le_card hsub
        have h2 : ((used.filter (fun x => c ≤ x)).erase c).card =
            (used.filter (fun x => c ≤ x)).card - 1 :=
          Finset.card_erase_of_mem (Finset.mem_filter.mpr ⟨hc, le_refl c⟩)
        have h3 := Finset.card_pos.mpr
          ⟨c, Finset.mem_filter.mpr ⟨hc, le_refl c⟩⟩
        omega
      obtain ⟨h1, h2, h3⟩ := ih (c + 1) hcard2
      simp only [skipUsedAux, if_pos hc]
      refine ⟨by omega, h2, ?_⟩
      intro k hk hk2
      rcases Nat.eq_or_lt_of_le hk with rfl | hlt
      · exact absurd hc hk2
      · exact h3 k (by omega) hk2
    · simp only [skipUsedAux, if_neg hc]
      exact ⟨le_refl c, hc, fun k hk _ => hk⟩

theorem skipUsed_spec (used : Finset Nat) (c : Nat) :
    c ≤ skipUsed used c ∧ skipUsed used c ∉ used ∧
    ∀ k, c ≤ k → k ∉ used → skipUsed used c ≤ k :=
  skipUsedAux_spec used used.card c (Finset.card_filter_le used _)

theorem generateBEL_step (T : Nat) (s : GenState) (h : genInv T s) :
    (generateBEL s).1 ∉ s.used ∧ T ≤ (generateBEL s).1 ∧
    (∀ k, k ∉ s.used → T ≤ k → (generateBEL s).1 ≤ k) ∧
    (generateBEL s).2.used = insert (generateBEL s).1 s.used ∧
    s.counter ≤ (generateBEL s).1 ∧
    (generateBEL s).2.counter = (generateBEL s).1 + 1 ∧
    genInv T (generateBEL s).2 := by
  obtain ⟨hsk1, hsk2, hsk3⟩ := skipUsed_spec s.used s.counter
  obtain ⟨hT, hfull⟩ := h
  refine ⟨hsk2, show T ≤ skipUsed s.used s.counter from by omega, ?_, rfl,
    hsk1, rfl,
    show T ≤ skipUsed s.used s.counter + 1 ∧
      ∀ k, T ≤ k → k < skipUsed s.used s.counter + 1 →
        k ∈ insert (skipUsed s.used s.counter) s.used from ⟨by omega, ?_⟩⟩
  · intro k hk hTk
    by_cases hck : k < s.counter
    · exact absurd (hfull k hTk hck) hk
    · exact hsk3 k (by omega) hk
  · intro k hTk hk
    rw [Finset.mem_insert]
    by_cases hck : k < s.counter
    · exact Or.inr (hfull k hTk hck)
    · rcases Nat.lt_or_ge k (skipUsed s.used s.counter) with hlt | hge
      · right
        by_contra hku
        exact absurd (hsk3 k (by omega) hku) (by omega)
      · left; omega

theorem genSeq_spec (T : Nat) :
    ∀ (n : Nat) (s : GenState), genInv T s →
      ((genSeq s n).2.used = s.used ∪ (genSeq s n).1.toFinset) ∧
      genInv T (genSeq s n).2 ∧
      (∀ v ∈ (genSeq s n).1, s.counter ≤ v) ∧
      List.Pairwise (· < ·) (genSeq s n).1 ∧
      (∀ i (hi : i < (genSeq s n).1.length),
        ((genSeq s n).1.get ⟨i, hi⟩ ∉ s.used ∪ ((genSeq s n).1.take i).toFinset) ∧
        T ≤ (genSeq s n).1.get ⟨i, hi⟩ ∧
        (∀ k, k ∉ s.used ∪ ((genSeq s n).1.take i).toFinset → T ≤ k →
          (genSeq s n).1.get ⟨i, hi⟩ ≤ k)) := by
  intro n
  induction n with
  | zero =>
    intro s hs
    refine ⟨?_, hs, ?_, List.Pairwise.nil, ?_⟩
    · show s.used = s.used ∪ ([] : List Nat).toFinset
      simp
    · intro v hv
      exact absurd hv (List.not_mem_nil v)
    · intro i hi
      exact absurd hi (Nat.not_lt_zero i)
  | succ n ih =>
    intro s hs
    obtain ⟨hv1, hv2, hv3, hv4, hv5, hv6, hv7⟩ := generateBEL_step T s hs
    obtain ⟨ih1, ih2, ih3, ih4, ih5⟩ := ih (generateBEL s).2 hv7
    have hrw : genSeq s (n + 1) =
        ((generateBEL s).1 :: (genSeq (generateBEL s).2 n).1,
          (genSeq (generateBEL s).2 n).2) := rfl
    rw [hrw]
    refine ⟨?_, ih2, ?_, ?_, ?_⟩
    · rw [ih1, hv4]
      simp only [List.toFinset_cons, Finset.insert_union, Finset.union_insert]
    · intro v hv
      rcases List.mem_cons.mp hv with rfl | hv
      · exact hv5
      · have := ih3 v hv
        rw [hv6] at this
        omega
    · rw [List.pairwise_cons]
      refine ⟨?_, ih4⟩
      intro w hw
      have := ih3 w hw
      rw [hv6] at this
      omega
    · intro i hi
      cases i with
      | zero =>
        simp only [List.get_cons_zero, List.take_zero, List.toFinset_nil,
          Finset.union_empty]
        exact ⟨hv1, hv2, fun k hk hTk => hv3 k hk hTk⟩
      | succ j =>
        have hj : j < (genSeq (generateBEL s).2 n).1.length := by
          simpa using hi
        have hget : ((generateBEL s).1 :: (genSeq (generateBEL s).2 n).1).get
            ⟨j + 1, hi⟩ = (genSeq (generateBEL s).2 n).1.get ⟨j, hj⟩ := rfl
        have hset : s.used ∪ (((generateBEL s).1 ::
              (genSeq (generateBEL s).2 n).1).take (j + 1)).toFinset =
            (generateBEL s).2.used ∪
              ((genSeq (generateBEL s).2 n).1.take j).toFinset := by
          rw [List.take_succ_cons, List.toFinset_cons, hv4]
          simp only [Finset.union_insert, Finset.insert_union]
        rw [hget, hset]
        exact ih5 j hj

/-- Claim C4 — each call to `generateBEL` returns the smallest integer not in
the used set that is at least the construction-time threshold
(max of the initial used set + 1, or 1 when it is empty); the value is added
to the used set; and across any sequence of calls within one run the
returned values are strictly increasing and never repeat. -/
theorem generateBEL_least_unused_monotone (used0 : Finset Nat) (n : Nat) :
    List.Pairwise (· < ·) (genSeq ⟨used0, initCounter used0⟩ n).1 ∧
    (genSeq ⟨used0, initCounter used0⟩ n).2.used =
      used0 ∪ (genSeq ⟨used0, initCounter used0⟩ n).1.toFinset ∧
    ∀ i (hi : i < (genSeq ⟨used0, initCounter used0⟩ n).1.length),
      ((genSeq ⟨used0, initCounter used0⟩ n).1.get ⟨i, hi⟩ ∉
        used0 ∪ ((genSeq ⟨used0, initCounter used0⟩ n).1.take i).toFinset) ∧
      initCounter used0 ≤ (genSeq ⟨used0, initCounter used0⟩ n).1.get ⟨i, hi⟩ ∧
      ∀ k, k ∉ used0 ∪ ((genSeq ⟨used0, initCounter used0⟩ n).1.take i).toFinset →
        initCounter used0 ≤ k →
        (genSeq ⟨used0, initCounter used0⟩ n).1.get ⟨i, hi⟩ ≤ k := by
  have hinv : genInv (initCounter used0) ⟨used0, initCounter used0⟩ :=
    ⟨le_refl _, fun k h1 h2 =>
      absurd (show k < initCounter used0 from h2) (by omega)⟩
  obtain ⟨h1, _, _, h4, h5⟩ := genSeq_spec (initCounter used0) n _ hinv
  exact ⟨h4, h1, h5⟩

/-- Witness for `generateBEL_least_unused_monotone` with used set {3, 7} and
two calls: outputs are strictly increasing, both get added to the used set,
and the first output is outside the initial used set. -/
theorem generateBEL_least_unused_monotone_witness :
    List.Pairwise (· < ·) (genSeq ⟨{3, 7}, initCounter {3, 7}⟩ 2).1 ∧
    (genSeq ⟨{3, 7}, initCounter {3, 7}⟩ 2).2.used =
      {3, 7} ∪ (genSeq ⟨{3, 7}, initCounter {3, 7}⟩ 2).1.toFinset ∧
    ((genSeq ⟨{3, 7}, initCounter {3, 7}⟩ 2).1.get ⟨0, by decide⟩ ∉
      ({3, 7} : Finset Nat) ∪
        ((genSeq ⟨{3, 7}, initCounter {3, 7}⟩ 2).1.take 0).toFinset) := by
  have h := generateBEL_least_unused_monotone {3, 7} 2
  exact ⟨h.1, h.2.1, (h.2.2 0 (by decide)).1⟩

/-- Claim C5 — COUNTEREXAMPLE.  With explicit IDs {3, 7} in use, two calls to
the generator do NOT yield 1 then 2: the counter is initialized to
`max + 1 = 8`, so values below the maximum are never reconsidered. -/
theorem generateBEL_3_7_not_1_2 :
    (genSeq ⟨{3, 7}, initCounter {3, 7}⟩ 2).1 ≠ [1, 2] := by decide

/-- Claim C5 (amended) — with explicit IDs {3, 7} in use, two calls to the
generator yield 8 then 9, the smallest unused integers at or above
`max {3, 7} + 1 = 8`. -/
theorem generateBEL_3_7_yields_8_9 :
    (genSeq ⟨{3, 7}, initCounter {3, 7}⟩ 2).1 = [8, 9] ∧
    initCounter {3, 7} = 8 := by decide

/-! ### The normalized name key always contains the comma -/

theorem mem_dropWhile_of_mem {p : Char → Bool} {c : Char} :
    ∀ {l : List Char}, c ∈ l → p c = false → c ∈ l.dropWhile p := by
  intro l
  induction l with
  | nil => intro h; exact absurd h (List.not_mem_nil c)
  | cons x xs ih =>
    intro hc hp
    rw [List.dropWhile_cons]
    by_cases hx : p x
    · rw [if_pos hx]
      rcases List.mem_cons.mp hc with rfl | hc2
      · rw [hx] at hp; exact absurd hp (by simp)
      · exact ih hc2 hp
    · rw [if_neg hx]
      exact hc

theorem mem_jsTrimL_of_mem {c : Char} {l : List Char}
    (hc : c ∈ l) (hp : jsIsSpace c = false) : c ∈ jsTrimL l := by
  unfold jsTrimL
  rw [List.mem_reverse]
  refine mem_dropWhile_of_mem ?_ hp
  rw [List.mem_reverse]
  exact mem_dropWhile_of_mem hc hp

theorem nameKeyOf_mem_comma (last first : String) :
    ',' ∈ (nameKeyOf last first).data := by
  unfold nameKeyOf normalizeName
  have hsd : (last ++ ", " ++ first).data =
      last.data ++ (',' :: ' ' :: first.data) := by
    rw [String.data_append, String.data_append, List.append_assoc]
    rfl
  have hne : ¬(last ++ ", " ++ first) = "" := by
    intro h
    have h2 := congrArg String.data h
    rw [hsd] at h2
    simp at h2
  rw [if_neg hne]
  show ',' ∈ jsTrimL _
  refine mem_jsTrimL_of_mem ?_ (by decide)
  rw [List.mem_filter]
  refine ⟨?_, by decide⟩
  show ',' ∈ List.map jsCharToLower (last ++ ", " ++ first).data
  rw [List.mem_map]
  refine ⟨',', ?_, by decide⟩
  rw [hsd]
  simp

theorem nameKeyOf_ne_empty (last first : String) :
    nameKeyOf last first ≠ "" := by
  intro h
  have h2 := congrArg String.data h
  have h3 := nameKeyOf_mem_comma last first
  rw [h2] at h3
  exact absurd h3 (List.not_mem_nil ',')

/-! ### JS `Map.set` lookup lemmas -/

theorem lookup_jsMapSet_self {β : Type} (k : String) (v : β) :
    ∀ m : List (String × β), (jsMapSet m k v).lookup k = some v := by
  intro m
  induction m with
  | nil => simp [jsMapSet, List.lookup]
  | cons p rest ih =>
    obtain ⟨k0, v0⟩ := p
    by_cases hk : k0 = k
    · subst hk
      simp [jsMapSet, List.lookup]
    · simp only [jsMapSet, if_neg hk, List.lookup]
      have hbeq : (k == k0) = false :=
        beq_eq_false_iff_ne.mpr (fun h => hk h.symm)
      rw [hbeq]
      exact ih

theorem lookup_jsMapSet_other {β : Type} (k k2 : String) (v : β)
    (hne : k2 ≠ k) :
    ∀ m : List (String × β), (jsMapSet m k v).lookup k2 = m.lookup k2 := by
  intro m
  have hbeq : (k2 == k) = false := beq_eq_false_iff_ne.mpr hne
  induction m with
  | nil =>
    simp only [jsMapSet, List.lookup]
    rw [hbeq]
  | cons p rest ih =>
    obtain ⟨k0, v0⟩ := p
    by_cases hk : k0 = k
    · subst hk
      simp only [jsMapSet, if_pos rfl, List.lookup]
      rw [hbeq]
    · simp only [jsMapSet, if_neg hk, List.lookup]
      rcases hbeq2 : (k2 == k0) with _ | _
      · exact ih
      · rfl

/-! ### The `attMap` fold computes (count90, max date) per key -/

theorem accum_some (cutoff90 : DateTime) :
    ∀ (recs : List RawRecord) (i : AttInfo),
      recs.foldl (fun o r =>
          some (updateInfo cutoff90 (o.getD ⟨0, none⟩) r.date)) (some i) =
        some ⟨i.count90 + count90Of cutoff90 recs,
          maxFoldDate i.lastDate recs⟩ := by
  intro recs
  induction recs with
  | nil =>
    intro i
    simp [count90Of, maxFoldDate]
  | cons r rest ih =>
    intro i
    rw [List.foldl_cons]
    have h1 : (some i).getD (⟨0, none⟩ : AttInfo) = i := rfl
    rw [h1, ih]
    have hlast : maxFoldDate (updateInfo cutoff90 i r.date).lastDate rest =
        maxFoldDate i.lastDate (r :: rest) := rfl
    rw [hlast]
    have hcount : (updateInfo cutoff90 i r.date).count90 +
        count90Of cutoff90 rest =
        i.count90 + count90Of cutoff90 (r :: rest) := by
      unfold updateInfo count90Of
      rw [List.filter_cons]
      by_cases h : dtLe cutoff90 r.date
      · rw [if_pos h, if_pos (decide_eq_true h)]
        simp only [List.length_cons]
        omega
      · rw [if_neg h, if_neg (fun hc => h (of_decide_eq_true hc))]
    rw [hcount]

theorem accum_none (cutoff90 : DateTime) (recs : List RawRecord) :
    recs.foldl (fun o r =>
        some (updateInfo cutoff90 (o.getD ⟨0, none⟩) r.date))
      (none : Option AttInfo) =
      match recs with
      | [] => none
      | _ :: _ => some ⟨count90Of cutoff90 recs, maxDateOf recs⟩ := by
  cases recs with
  | nil => rfl
  | cons r rest =>
    rw [List.foldl_cons]
    have h1 : (none : Option AttInfo).getD ⟨0, none⟩ = ⟨0, none⟩ := rfl
    rw [h1, accum_some]
    have hlast : maxFoldDate (updateInfo cutoff90 ⟨0, none⟩ r.date).lastDate rest =
        maxDateOf (r :: rest) := rfl
    rw [hlast]
    have hcount : (updateInfo cutoff90 ⟨0, none⟩ r.date).count90 +
        count90Of cutoff90 rest = count90Of cutoff90 (r :: rest) := by
      unfold updateInfo count90Of
      rw [List.filter_cons]
      by_cases h : dtLe cutoff90 r.date
      · rw [if_pos h, if_pos (decide_eq_true h)]
        simp only [List.length_cons]
        omega
      · rw [if_neg h, if_neg (fun hc => h (of_decide_eq_true hc))]
        simp
    rw [hcount]

theorem accum_none_cons (cutoff90 : DateTime) (r : RawRecord)
    (rest : List RawRecord) :
    (r :: rest).foldl (fun o r =>
        some (updateInfo cutoff90 (o.getD ⟨0, none⟩) r.date))
      (none : Option AttInfo) =
      some ⟨count90Of cutoff90 (r :: rest), maxDateOf (r :: rest)⟩ := by
  rw [accum_none]

theorem lookup_foldl_stepAtt (cutoff90 : DateTime) (key : String)
    (_hkey : key ≠ "") :
    ∀ (raw : List RawRecord) (m : List (String × AttInfo)),
      ((raw.foldl (stepAtt cutoff90) m).lookup key) =
        (validRecsFor key raw).foldl (fun o r =>
          some (updateInfo cutoff90 (o.getD ⟨0, none⟩) r.date))
          (m.lookup key) := by
  intro raw
  induction raw with
  | nil => intro m; rfl
  | cons r rest ih =>
    intro m
    rw [List.foldl_cons]
    by_cases hval : r.firstName = "" ∨ r.lastName = ""
    · have hstep : stepAtt cutoff90 m r = m := by
        unfold stepAtt
        rw [if_pos hval]
      have hfil : validRecsFor key (r :: rest) = validRecsFor key rest := by
        unfold validRecsFor
        rw [List.filter_cons, if_neg ?_]
        simp only [decide_eq_true_eq]
        intro hcon
        rcases hval with h | h
        · exact hcon.1 h
        · exact hcon.2.1 h
      rw [hstep, hfil]
      exact ih m
    · push_neg at hval
      have hkne := nameKeyOf_ne_empty r.lastName r.firstName
      have hstep : stepAtt cutoff90 m r =
          jsMapSet m (nameKeyOf r.lastName r.firstName)
            (updateInfo cutoff90
              ((m.lookup (nameKeyOf r.lastName r.firstName)).getD ⟨0, none⟩)
              r.date) := by
        unfold stepAtt
        rw [if_neg ?_, if_neg hkne]
        intro h
        rcases h with h | h
        · exact hval.1 h
        · exact hval.2 h
      by_cases hsame : nameKeyOf r.lastName r.firstName = key
      · have hfil : validRecsFor key (r :: rest) = r :: validRecsFor key rest := by
          unfold validRecsFor
          rw [List.filter_cons, if_pos ?_]
          simp only [decide_eq_true_eq]
          exact ⟨hval.1, hval.2, hsame⟩
        rw [hstep, hsame, hfil, List.foldl_cons, ih]
        rw [lookup_jsMapSet_self]
      · have hfil : validRecsFor key (r :: rest) = validRecsFor key rest := by
          unfold validRecsFor
          rw [List.filter_cons, if_neg ?_]
          simp only [decide_eq_true_eq]
          intro hcon
          exact hsame hcon.2.2
        rw [hstep, hfil, ih]
        rw [lookup_jsMapSet_other _ _ _ (fun h => hsame h.symm)]

theorem maxFoldDate_some (x : DateTime) :
    ∀ recs : List RawRecord, ∃ l, maxFoldDate (some x) recs = some l := by
  intro recs
  induction recs generalizing x with
  | nil => exact ⟨x, rfl⟩
  | cons r rest ih =>
    show ∃ l, maxFoldDate (if dtLt x r.date then some r.date else some x) rest = some l
    by_cases h : dtLt x r.date
    · rw [if_pos h]; exact ih r.date
    · rw [if_neg h]; exact ih x

theorem maxDateOf_eq_none_iff (recs : List RawRecord) :
    maxDateOf recs = none ↔ recs = [] := by
  cases recs with
  | nil => simp [maxDateOf, maxFoldDate]
  | cons r rest =>
    simp only [maxDateOf]
    constructor
    · intro h
      have h2 : maxFoldDate (some r.date) rest = none := h
      obtain ⟨l, hl⟩ := maxFoldDate_some r.date rest
      rw [hl] at h2
      exact absurd h2 (by simp)
    · intro h
      exact absurd h (by simp)

/-- Claim C3 — `updateActivityLevels` classifies every roster row by the
first matching rule, in order: Archive when the identity's most recent
record date is strictly before `today − 12 months`; else Core when the
number of raw records dated within the last 90 days is at least 12; else
Active when that count is at least 3; else Inactive — in particular the
recency rule beats the frequency rules, and a name with no accumulated
records at all (`maxDateOf = none`) is Inactive. -/
theorem updateActivityLevels_tier_rules (cutoff90 cutoff12mo : DateTime)
    (raw : List RawRecord) (names : List (String × String)) :
    updateActivityLevels cutoff90 cutoff12mo raw names =
      names.map (fun p =>
        match maxDateOf (validRecsFor (nameKeyOf p.1 p.2) raw) with
        | none => "Inactive"
        | some l =>
          if dtLt l cutoff12mo then "Archive"
          else if 12 ≤ count90Of cutoff90 (validRecsFor (nameKeyOf p.1 p.2) raw)
            then "Core"
          else if 3 ≤ count90Of cutoff90 (validRecsFor (nameKeyOf p.1 p.2) raw)
            then "Active"
          else "Inactive") := by
  unfold updateActivityLevels
  refine List.map_congr_left ?_
  intro p _
  have hkey := nameKeyOf_ne_empty p.1 p.2
  have hb : buildAttMap cutoff90 raw = raw.foldl (stepAtt cutoff90) [] := rfl
  have hlook := lookup_foldl_stepAtt cutoff90 (nameKeyOf p.1 p.2) hkey raw []
  simp only [List.lookup_nil] at hlook
  rcases hrec : validRecsFor (nameKeyOf p.1 p.2) raw with _ | ⟨r0, rest0⟩
  · rw [hrec, List.foldl_nil] at hlook
    simp only [tierFor, if_neg hkey, hb, hlook, Option.none_bind, Option.map_none',
      Option.getD_none, maxDateOf, maxFoldDate, List.foldl_nil]
    simp
  · rw [hrec, accum_none_cons] at hlook
    obtain ⟨l, hl⟩ := maxFoldDate_some r0.date rest0
    have hl2 : maxDateOf (r0 :: rest0) = some l := hl
    rw [hl2]
    rw [hl2] at hlook
    simp only [tierFor, if_neg hkey, hb, hlook, Option.some_bind, Option.map_some',
      Option.getD_some]
    by_cases h1 : dtLt l cutoff12mo
    · rw [if_pos (by simpa using h1), if_pos h1]
    · rw [if_neg (by simpa using h1), if_neg h1]

/-! ### Used-ID reservation (claim C6) -/

theorem dirStep_used_mono (st : BelState) (row : SrcRow) :
    st.used ⊆ (dirStep st row).used := by
  rcases hid : extractNumericBel row.id0 with _ | id
  · simp only [dirStep, hid]
    exact fun x hx => hx
  · simp only [dirStep, hid]
    by_cases h : row.last ≠ "" ∧ row.first ≠ ""
    · rw [if_pos h]
      exact fun x hx => Finset.mem_insert_of_mem hx
    · rw [if_neg h]

theorem attStep_used_mono (st : BelState) (row : SrcRow) :
    st.used ⊆ (attStep st row).used := by
  rcases hid : extractNumericBel row.id0 with _ | id
  · simp only [attStep, hid]
    exact fun x hx => hx
  · simp only [attStep, hid]
    exact fun x hx => Finset.mem_insert_of_mem hx

theorem foldl_dirStep_used_mono :
    ∀ (l : List SrcRow) (st : BelState), st.used ⊆ (l.foldl dirStep st).used := by
  intro l
  induction l with
  | nil => exact fun st x hx => hx
  | cons r rest ih =>
    intro st
    exact fun x hx => ih (dirStep st r) (dirStep_used_mono st r hx)

theorem foldl_attStep_used_mono :
    ∀ (l : List SrcRow) (st : BelState), st.used ⊆ (l.foldl attStep st).used := by
  intro l
  induction l with
  | nil => exact fun st x hx => hx
  | cons r rest ih =>
    intro st
    exact fun x hx => ih (attStep st r) (attStep_used_mono st r hx)

theorem foldl_attStep_reserves {row : SrcRow} {id : Nat}
    (hid : extractNumericBel row.id0 = some id) :
    ∀ (l : List SrcRow) (st : BelState),
      row ∈ l → id ∈ (l.foldl attStep st).used := by
  intro l
  induction l with
  | nil => intro st h; exact absurd h (List.not_mem_nil row)
  | cons r rest ih =>
    intro st hmem
    rcases List.mem_cons.mp hmem with rfl | hmem2
    · refine foldl_attStep_used_mono rest (attStep st row) ?_
      simp only [attStep, hid]
      exact Finset.mem_insert_self id _
    · exact ih (attStep st r) hmem2

theorem foldl_dirStep_reserves {row : SrcRow} {id : Nat}
    (hid : extractNumericBel row.id0 = some id)
    (hnames : row.last ≠ "" ∧ row.first ≠ "") :
    ∀ (l : List SrcRow) (st : BelState),
      row ∈ l → id ∈ (l.foldl dirStep st).used := by
  intro l
  induction l with
  | nil => intro st h; exact absurd h (List.not_mem_nil row)
  | cons r rest ih =>
    intro st hmem
    rcases List.mem_cons.mp hmem with rfl | hmem2
    · refine foldl_dirStep_used_mono rest (dirStep st row) ?_
      simp only [dirStep, hid, if_pos hnames]
      exact Finset.mem_insert_self id _
    · exact ih (dirStep st r) hmem2

/-- Claim C6 — COUNTEREXAMPLE.  A Directory row carrying the explicit ID 5
but an empty last name does NOT reserve its ID: `populateFromDirectory` adds
an ID to `allUsedCodes` only when both name cells are truthy
(`if (id !== null && last && first)`), so the used set stays empty. -/
theorem directory_id_not_reserved :
    extractNumericBel c6BadRow.id0 = some 5 ∧
    (populateFromDirectory ⟨[], ∅⟩ [c6Header, c6BadRow] 1).used = ∅ := by
  constructor
  · rfl
  · decide

/-- Claim C6 (amended) — rows scanned by `populateFromAttendance` (Event
Attendance, Sunday Service) reserve their explicit ID in the used-ID set
regardless of whether the name fields produce a valid identity key, but
Directory rows (`populateFromDirectory`) reserve their ID only when both
the last-name and first-name cells are non-empty. -/
theorem explicit_id_reservation (st : BelState) (rows : List SrcRow)
    (startRow : Nat) (row : SrcRow) (id : Nat)
    (hmem : row ∈ rows.drop startRow)
    (hid : extractNumericBel row.id0 = some id) :
    id ∈ (populateFromAttendance st rows startRow).used ∧
    (row.last ≠ "" ∧ row.first ≠ "" →
      id ∈ (populateFromDirectory st rows startRow).used) := by
  have hlen : ¬(rows.length ≤ startRow) := by
    intro hle
    rw [List.drop_eq_nil_of_le hle] at hmem
    exact absurd hmem (List.not_mem_nil row)
  constructor
  · unfold populateFromAttendance
    rw [if_neg hlen]
    exact foldl_attStep_reserves hid _ st hmem
  · intro hnames
    unfold populateFromDirectory
    rw [if_neg hlen]
    exact foldl_dirStep_reserves hid hnames _ st hmem

/-- Witness for `explicit_id_reservation`: a data row with explicit ID 9 and
both names present reserves 9 in both passes. -/
theorem explicit_id_reservation_witness :
    9 ∈ (populateFromAttendance ⟨[], ∅⟩ [c6Header, c6GoodRow] 1).used ∧
    (c6GoodRow.last ≠ "" ∧ c6GoodRow.first ≠ "" →
      9 ∈ (populateFromDirectory ⟨[], ∅⟩ [c6Header, c6GoodRow] 1).used) :=
  explicit_id_reservation ⟨[], ∅⟩ [c6Header, c6GoodRow] 1 c6GoodRow 9
    (by decide) (by decide)

/-! ### Quarter event-key sets: sizes count distinct keys -/

theorem setAdd_nodup {s : List String} (h : s.Nodup) (k : String) :
    (setAdd s k).Nodup := by
  unfold setAdd
  by_cases hk : k ∈ s
  · rw [if_pos hk]; exact h
  · rw [if_neg hk]
    rw [List.nodup_append]
    refine ⟨h, List.nodup_singleton k, ?_⟩
    intro a ha hb
    rw [List.mem_singleton] at hb
    subst hb
    exact hk ha

theorem setAdd_toFinset (s : List String) (k : String) :
    (setAdd s k).toFinset = insert k s.toFinset := by
  unfold setAdd
  by_cases hk : k ∈ s
  · rw [if_pos hk]
    ext x
    simp only [List.mem_toFinset, Finset.mem_insert]
    constructor
    · intro h; exact Or.inr h
    · rintro (rfl | h)
      · exact hk
      · exact h
  · rw [if_neg hk]
    ext x
    simp [or_comm]

theorem foldl_setAdd_spec (p : GRecord → Bool) :
    ∀ (records : List GRecord) (acc : List String), acc.Nodup →
      (records.foldl (fun a r => if p r then setAdd a r.eventKey else a) acc).Nodup ∧
      (records.foldl (fun a r => if p r then setAdd a r.eventKey else a) acc).toFinset =
        acc.toFinset ∪
          ((records.filter p).map (fun r => r.eventKey)).toFinset := by
  intro records
  induction records with
  | nil =>
    intro acc h
    exact ⟨h, by simp⟩
  | cons r rest ih =>
    intro acc h
    rw [List.foldl_cons, List.filter_cons]
    by_cases hp : p r = true
    · rw [if_pos hp, if_pos hp]
      obtain ⟨h1, h2⟩ := ih (setAdd acc r.eventKey) (setAdd_nodup h _)
      refine ⟨h1, ?_⟩
      rw [h2, setAdd_toFinset]
      rw [List.map_cons, List.toFinset_cons]
      ext x
      simp only [Finset.mem_union, Finset.mem_insert, List.mem_toFinset]
      tauto
    · rw [if_neg hp, if_neg hp]
      exact ih acc h

theorem collectQuarterKeys_eq (y : Nat) :
    ∀ (records : List GRecord) (a1 a2 a3 a4 : List String),
      records.foldl (quarterStep y) (a1, a2, a3, a4) =
        (records.foldl (fun a r => if inQ1 y r.date then setAdd a r.eventKey else a) a1,
         records.foldl (fun a r => if inQ2 y r.date then setAdd a r.eventKey else a) a2,
         records.foldl (fun a r => if inQ3 y r.date then setAdd a r.eventKey else a) a3,
         records.foldl (fun a r => if inQ4 y r.date then setAdd a r.eventKey else a) a4) := by
  intro records
  induction records with
  | nil => intro a1 a2 a3 a4; rfl
  | cons r rest ih =>
    intro a1 a2 a3 a4
    rw [List.foldl_cons, List.foldl_cons, List.foldl_cons, List.foldl_cons,
      List.foldl_cons]
    exact ih _ _ _ _

theorem pickMostRecent_eq_none_iff (l : List GRecord) :
    pickMostRecent l = none ↔ l = [] := by
  cases l with
  | nil => simp [pickMostRecent]
  | cons r rs =>
    constructor
    · intro h
      exfalso
      rcases hm : pickMostRecent rs with _ | m
      · simp [pickMostRecent, hm] at h
      · simp only [pickMostRecent, hm] at h
        by_cases hd : dtLt r.date m.date
        · rw [if_pos hd] at h
          exact absurd h (by simp)
        · rw [if_neg hd] at h
          exact absurd h (by simp)
    · intro h
      exact absurd h (by simp)

theorem mem_firstDedupAux {a : Nat} :
    ∀ (l : List Nat) (seen : List Nat), a ∈ l → a ∉ seen →
      a ∈ firstDedupAux seen l := by
  intro l
  induction l with
  | nil =>
    intro seen h _
    exact absurd h (List.not_mem_nil a)
  | cons b rest ih =>
    intro seen hmem hseen
    rcases List.mem_cons.mp hmem with rfl | h2
    · simp only [firstDedupAux, if_neg hseen]
      exact List.mem_cons_self a _
    · simp only [firstDedupAux]
      by_cases hb : b ∈ seen
      · rw [if_pos hb]
        exact ih seen h2 hseen
      · rw [if_neg hb]
        by_cases hab : a = b
        · subst hab
          exact List.mem_cons_self a _
        · refine List.mem_cons_of_mem b (ih (seen ++ [b]) h2 ?_)
          intro hc
          rcases List.mem_append.mp hc with hc1 | hc2
          · exact hseen hc1
          · exact hab (List.mem_singleton.mp hc2)

theorem mem_firstDedup {a : Nat} {l : List Nat} (h : a ∈ l) :
    a ∈ firstDedup l :=
  mem_firstDedupAux l [] h (List.not_mem_nil a)

/-- Claim C1 — for every identity (BEL code) with at least one attendance
record, the summary row of `calculateAttendanceStats` reports per quarter
the number of DISTINCT event keys (event label paired with calendar date,
with Sunday-service-labeled events collapsed to the literal label
"Sunday Service" plus the date) among that identity's records whose date
falls in the quarter — not the number of raw records — and the reported
total equals q1 + q2 + q3 + q4.  Two same-day Sunday-service records from
different sources produce the same event key, so they contribute one unit. -/
theorem calculateAttendanceStats_distinct_event_keys (y : Nat)
    (raw : List RawRecord) (dData : List SrcRow) (bel : Nat)
    (hbel : bel ∈ raw.map (fun r => r.bel)) :
    (∃ row, row ∈ calculateAttendanceStats y raw dData ∧
      row.bel = bel ∧
      row.q1 = (((recordsOf raw bel).filter (fun r => inQ1 y r.date)).map
        (fun r => r.eventKey)).toFinset.card ∧
      row.q2 = (((recordsOf raw bel).filter (fun r => inQ2 y r.date)).map
        (fun r => r.eventKey)).toFinset.card ∧
      row.q3 = (((recordsOf raw bel).filter (fun r => inQ3 y r.date)).map
        (fun r => r.eventKey)).toFinset.card ∧
      row.q4 = (((recordsOf raw bel).filter (fun r => inQ4 y r.date)).map
        (fun r => r.eventKey)).toFinset.card ∧
      row.total = row.q1 + row.q2 + row.q3 + row.q4) ∧
    (∀ e1 e2 d1 d2, isSundayService e1 = true → isSundayService e2 = true →
      dateKeyString d1 = dateKeyString d2 → eventKey e1 d1 = eventKey e2 d2) := by
  constructor
  · have hraw : ¬(raw = []) := by
      intro h
      subst h
      simp at hbel
    have hrecne : recordsOf raw bel ≠ [] := by
      obtain ⟨r, hr, hrb⟩ := List.mem_map.mp hbel
      intro h
      have hmem : toGRecord r ∈ recordsOf raw bel := by
        unfold recordsOf
        exact List.mem_map_of_mem toGRecord
          (List.mem_filter.mpr ⟨hr, by simpa using hrb⟩)
      rw [h] at hmem
      exact absurd hmem (List.not_mem_nil _)
    rcases hm : pickMostRecent (recordsOf raw bel) with _ | m
    · exact absurd ((pickMostRecent_eq_none_iff _).mp hm) hrecne
    · have hsr : statRowFor y (directoryNamesSet dData) bel (recordsOf raw bel) =
          some ⟨bel, m.firstName, m.lastName,
            (collectQuarterKeys y (recordsOf raw bel)).1.length,
            (collectQuarterKeys y (recordsOf raw bel)).2.1.length,
            (collectQuarterKeys y (recordsOf raw bel)).2.2.1.length,
            (collectQuarterKeys y (recordsOf raw bel)).2.2.2.length,
            (collectQuarterKeys y (recordsOf raw bel)).1.length +
              (collectQuarterKeys y (recordsOf raw bel)).2.1.length +
              (collectQuarterKeys y (recordsOf raw bel)).2.2.1.length +
              (collectQuarterKeys y (recordsOf raw bel)).2.2.2.length,
            m.date,
            if pastoralTest (lastEventNameOf m.eventKey) then "Pastoral Check-In"
              else lastEventNameOf m.eventKey,
            if nameKeyOf m.lastName m.firstName ∈ directoryNamesSet dData then ""
              else "Guest"⟩ := by
        unfold statRowFor
        rw [hm]
      have hck := collectQuarterKeys_eq y (recordsOf raw bel) [] [] [] []
      have hlen : ∀ p : GRecord → Bool,
          ((recordsOf raw bel).foldl
            (fun a r => if p r then setAdd a r.eventKey else a) []).length =
          (((recordsOf raw bel).filter p).map
            (fun r => r.eventKey)).toFinset.card := by
        intro p
        obtain ⟨hnd, hts⟩ := foldl_setAdd_spec p (recordsOf raw bel) [] List.nodup_nil
        rw [← List.toFinset_card_of_nodup hnd, hts]
        simp
      refine ⟨⟨bel, m.firstName, m.lastName,
        (collectQuarterKeys y (recordsOf raw bel)).1.length,
        (collectQuarterKeys y (recordsOf raw bel)).2.1.length,
        (collectQuarterKeys y (recordsOf raw bel)).2.2.1.length,
        (collectQuarterKeys y (recordsOf raw bel)).2.2.2.length,
        (collectQuarterKeys y (recordsOf raw bel)).1.length +
          (collectQuarterKeys y (recordsOf raw bel)).2.1.length +
          (collectQuarterKeys y (recordsOf raw bel)).2.2.1.length +
          (collectQuarterKeys y (recordsOf raw bel)).2.2.2.length,
        m.date,
        if pastoralTest (lastEventNameOf m.eventKey) then "Pastoral Check-In"
          else lastEventNameOf m.eventKey,
        if nameKeyOf m.lastName m.firstName ∈ directoryNamesSet dData then ""
          else "Guest"⟩, ?_, rfl, ?_, ?_, ?_, ?_, rfl⟩
      · unfold calculateAttendanceStats
        rw [if_neg hraw]
        exact List.mem_filterMap.mpr ⟨bel, mem_firstDedup hbel, hsr⟩
      · show (collectQuarterKeys y (recordsOf raw bel)).1.length = _
        rw [show collectQuarterKeys y (recordsOf raw bel) = _ from hck]
        exact hlen _
      · show (collectQuarterKeys y (recordsOf raw bel)).2.1.length = _
        rw [show collectQuarterKeys y (recordsOf raw bel) = _ from hck]
        exact hlen _
      · show (collectQuarterKeys y (recordsOf raw bel)).2.2.1.length = _
        rw [show collectQuarterKeys y (recordsOf raw bel) = _ from hck]
        exact hlen _
      · show (collectQuarterKeys y (recordsOf raw bel)).2.2.2.length = _
        rw [show collectQuarterKeys y (recordsOf raw bel) = _ from hck]
        exact hlen _
  · intro e1 e2 d1 d2 h1 h2 hd
    unfold eventKey
    rw [if_pos h1, if_pos h2, hd]

/-- Witness for `calculateAttendanceStats_distinct_event_keys`: identity 1
with two same-day Sunday-service records; the distinct-key count for Q1 is
1, not 2. -/
theorem calculateAttendanceStats_distinct_event_keys_witness :
    ((∃ row, row ∈ calculateAttendanceStats 2024 c1Raw [] ∧
      row.bel = 1 ∧
      row.q1 = (((recordsOf c1Raw 1).filter (fun r => inQ1 2024 r.date)).map
        (fun r => r.eventKey)).toFinset.card ∧
      row.q2 = (((recordsOf c1Raw 1).filter (fun r => inQ2 2024 r.date)).map
        (fun r => r.eventKey)).toFinset.card ∧
      row.q3 = (((recordsOf c1Raw 1).filter (fun r => inQ3 2024 r.date)).map
        (fun r => r.eventKey)).toFinset.card ∧
      row.q4 = (((recordsOf c1Raw 1).filter (fun r => inQ4 2024 r.date)).map
        (fun r => r.eventKey)).toFinset.card ∧
      row.total = row.q1 + row.q2 + row.q3 + row.q4) ∧
    (∀ e1 e2 d1 d2, isSundayService e1 = true → isSundayService e2 = true →
      dateKeyString d1 = dateKeyString d2 → eventKey e1 d1 = eventKey e2 d2)) ∧
    (((recordsOf c1Raw 1).filter (fun r => inQ1 2024 r.date)).map
      (fun r => r.eventKey)).toFinset.card = 1 ∧
    (recordsOf c1Raw 1).length = 2 :=
  ⟨calculateAttendanceStats_distinct_event_keys 2024 c1Raw [] 1 (by decide),
   by decide, by decide⟩

/-- Claim C7 — the code violates the claimed idempotence.  On `c7Store` the
first run's union append into Event Attendance ([Adams, Baker]) is written
as one block starting at the first blank data row (row 5), overwriting the
populated row 6 ("Xu, Ann"); the second run finds "Xu, Ann" (still present
in Sunday Service, hence in the union) missing from Event Attendance and
appends it, so the tab's data after run 2 differs from its data after
run 1 (an extra appended row). -/
theorem syncDirectoryNames_not_idempotent :
    lastRowOf (syncDirectoryNamesToAllTabs c7Store).eventAttendance = 6 ∧
    lastRowOf (syncDirectoryNamesToAllTabs
      (syncDirectoryNamesToAllTabs c7Store)).eventAttendance = 7 ∧
    (syncDirectoryNamesToAllTabs
        (syncDirectoryNamesToAllTabs c7Store)).eventAttendance.rows ≠
      (syncDirectoryNamesToAllTabs c7Store).eventAttendance.rows ∧
    (Cell.str "Xu" ∈ ((syncDirectoryNamesToAllTabs
        (syncDirectoryNamesToAllTabs c7Store)).eventAttendance.rows.drop 4).flatten ∧
      Cell.str "Xu" ∉ ((syncDirectoryNamesToAllTabs
        c7Store).eventAttendance.rows.drop 4).flatten) := by
  refine ⟨?_, ?_, ?_, ?_, ?_⟩ <;> decide

end HQ
